import Mathlib

/-!
Verification development for the trading-framework backtest engine
(src/trading_framework/backtest/backtest_engine.py), the strategy signal
contract (src/trading_framework/strategies/base_strategy.py) and the
indicator library (src/trading_framework/utils/indicators.py).

Prices, capital and sizes are embedded as rationals; the Python floats are
modelled exactly, with the one exception of the square roots taken in the
Sharpe ratio (handled separately over the reals).  Timestamps are bar
indices.  The Python lists self.trades and self.equity_curve are kept in
reverse order here (newest element first) so that the code's update of the
last trade record becomes an update of the list head; chronological order
is recovered with List.reverse.
-/

namespace TradingFramework

/-- Position side of an open position.  The engine field self.position is
None, LONG or SHORT in the source, embedded as Option PosType. -/
inductive PosType
  | LONG
  | SHORT
deriving DecidableEq

/-- Reason recorded on a trade close, from BacktestEngine._close_position
call sites. -/
inductive ExitReason
  | STOP_LOSS
  | TAKE_PROFIT
  | SIGNAL
  | FINAL
deriving DecidableEq

/-- Fields written into a trade dict by BacktestEngine._close_position. -/
structure TradeExit where
  exitTime : ℕ
  exitPrice : ℚ
  exitReason : ExitReason
  pnl : ℚ
  pnlPct : ℚ
  exitCommission : ℚ
deriving DecidableEq

/-- One element of BacktestEngine.trades.  The entry fields are written by
_open_long and _open_short; the exit fields (none while the trade is open)
by _close_position. -/
structure Trade where
  entryTime : ℕ
  entryPrice : ℚ
  positionType : PosType
  size : ℚ
  commission : ℚ
  exit : Option TradeExit
deriving DecidableEq

/-- Run configuration read by BacktestEngine.__init__ and _open_long and
_open_short: config.trading.initial_capital, config.backtest.commission,
config.backtest.slippage, config.trading.max_position_size. -/
structure Config where
  initialCapital : ℚ
  commission : ℚ
  slippage : ℚ
  maxPositionSize : ℚ
deriving DecidableEq

/-- One element of BacktestEngine.equity_curve (a dict with keys
timestamp, equity, position). -/
structure EquityPoint where
  timestamp : ℕ
  equity : ℚ
  position : Option PosType
deriving DecidableEq

/-- Default equity point used for out-of-range list reads in theorem
statements; its position field is FLAT. -/
def dfltPoint : EquityPoint := { timestamp := 0, equity := 0, position := none }

/-- Strategy bookkeeping fields from BaseStrategy.__init__ (self.position,
self.entry_price, self.position_size) together with the subclass-private
state tau (grid levels, pyramiding flags, ...). -/
structure StratState (τ : Type) where
  position : Option PosType
  entryPrice : ℚ
  positionSize : ℚ
  priv : τ

/-- The strategy capability set consumed by BacktestEngine.run.  Decision
methods receive the close series and the current index; since
calculate_signals is a pure function of the input frame that only adds
derived indicator columns, its effect is absorbed into these decision
functions and the engine reads the close prices of the original series. -/
structure Strategy (τ : Type) where
  shouldEnterLong : StratState τ → List ℚ → ℕ → Bool
  shouldEnterShort : StratState τ → List ℚ → ℕ → Bool
  shouldExitLong : StratState τ → List ℚ → ℕ → Bool
  shouldExitShort : StratState τ → List ℚ → ℕ → Bool
  checkStopLoss : StratState τ → ℚ → Bool
  checkTakeProfit : StratState τ → ℚ → Bool
  updatePosition : StratState τ → Option PosType → ℚ → ℚ → StratState τ
  reset : StratState τ → StratState τ

/-- BaseStrategy.update_position: sets the three bookkeeping fields and
leaves subclass-private state alone. -/
def baseUpdatePosition {τ : Type} (σ : StratState τ) (pt : Option PosType)
    (price size : ℚ) : StratState τ :=
  { σ with position := pt, entryPrice := price, positionSize := size }

/-- Engine state: the mutable fields of BacktestEngine (capital, position,
position_size, entry_price, trades, equity_curve) plus the strategy
instance state it drives.  trades and equityCurve are newest-first. -/
structure EngineState (τ : Type) where
  capital : ℚ
  position : Option PosType
  positionSize : ℚ
  entryPrice : ℚ
  trades : List Trade
  equityCurve : List EquityPoint
  strat : StratState τ

/-- BacktestEngine._open_long.  Note that self.position_size is assigned
before the capital-sufficiency check, so on a skipped open the engine's
position_size field still changes while capital, position and trades do
not. -/
def openLong {τ : Type} (cfg : Config) (s : EngineState τ) (price : ℚ)
    (time : ℕ) : EngineState τ :=
  let actualPrice := price * (1 + cfg.slippage)
  let maxPositionValue := s.capital * cfg.maxPositionSize
  let size := maxPositionValue / actualPrice
  let cost := size * actualPrice
  let commissionCost := cost * cfg.commission
  let totalCost := cost + commissionCost
  if totalCost > s.capital then
    { s with positionSize := size }
  else
    { s with
      capital := s.capital - totalCost
      position := some PosType.LONG
      positionSize := size
      entryPrice := actualPrice
      trades := { entryTime := time, entryPrice := actualPrice,
                  positionType := PosType.LONG, size := size,
                  commission := commissionCost, exit := none } :: s.trades }

/-- BacktestEngine._open_short.  There is no capital-sufficiency check on
this path: the short is always opened and the net proceeds are credited. -/
def openShort {τ : Type} (cfg : Config) (s : EngineState τ) (price : ℚ)
    (time : ℕ) : EngineState τ :=
  let actualPrice := price * (1 - cfg.slippage)
  let maxPositionValue := s.capital * cfg.maxPositionSize
  let size := maxPositionValue / actualPrice
  let proceeds := size * actualPrice
  let commissionCost := proceeds * cfg.commission
  let netProceeds := proceeds - commissionCost
  { s with
    capital := s.capital + netProceeds
    position := some PosType.SHORT
    positionSize := size
    entryPrice := actualPrice
    trades := { entryTime := time, entryPrice := actualPrice,
                positionType := PosType.SHORT, size := size,
                commission := commissionCost, exit := none } :: s.trades }

/-- BacktestEngine._close_position.  Returns the state unchanged when the
position is FLAT or the trade list is empty (the early return in the
source); otherwise settles the sell or buy leg, computes pnl from the
engine's entry_price and position_size, finalizes the newest trade record
and flattens the position. -/
def closePosition {τ : Type} (cfg : Config) (s : EngineState τ) (price : ℚ)
    (time : ℕ) (reason : ExitReason) : EngineState τ :=
  match s.position, s.trades with
  | some pt, t :: rest =>
    let actualPrice :=
      match pt with
      | PosType.LONG => price * (1 - cfg.slippage)
      | PosType.SHORT => price * (1 + cfg.slippage)
    let legValue := s.positionSize * actualPrice
    let commissionCost := legValue * cfg.commission
    let newCapital :=
      match pt with
      | PosType.LONG => s.capital + (legValue - commissionCost)
      | PosType.SHORT => s.capital - (legValue + commissionCost)
    let pnl :=
      match pt with
      | PosType.LONG => (actualPrice - s.entryPrice) * s.positionSize
      | PosType.SHORT => (s.entryPrice - actualPrice) * s.positionSize
    let pnlPct := pnl / (s.entryPrice * s.positionSize) * 100
    let ex : TradeExit :=
      { exitTime := time, exitPrice := actualPrice, exitReason := reason,
        pnl := pnl, pnlPct := pnlPct, exitCommission := commissionCost }
    { s with
      capital := newCapital
      position := none
      positionSize := 0
      entryPrice := 0
      trades := { t with exit := some ex } :: rest }
  | _, _ => s

/-- BacktestEngine._calculate_equity: capital plus the unrealized pnl of
the live position at the given price. -/
def calcEquity {τ : Type} (s : EngineState τ) (price : ℚ) : ℚ :=
  match s.position with
  | some PosType.LONG => s.capital + (price - s.entryPrice) * s.positionSize
  | some PosType.SHORT => s.capital + (s.entryPrice - price) * s.positionSize
  | none => s.capital

/-- Stop-loss and take-profit block of the per-bar loop of
BacktestEngine.run: only when the position is non-FLAT, check_stop_loss
first, else check_take_profit, closing at the bar's close and notifying
the strategy through update_position(None, 0, 0). -/
def runStopTp {τ : Type} (strat : Strategy τ) (cfg : Config)
    (s : EngineState τ) (price : ℚ) (i : ℕ) : EngineState τ :=
  match s.position with
  | some _ =>
    if strat.checkStopLoss s.strat price then
      let c := closePosition cfg s price i ExitReason.STOP_LOSS
      { c with strat := strat.updatePosition c.strat none 0 0 }
    else if strat.checkTakeProfit s.strat price then
      let c := closePosition cfg s price i ExitReason.TAKE_PROFIT
      { c with strat := strat.updatePosition c.strat none 0 0 }
    else s
  | none => s

/-- Entry and exit-signal block of the per-bar loop: when FLAT (possibly
having just been closed this bar) try should_enter_long then
should_enter_short, else consult the should_exit method matching the held
side. -/
def runSignals {τ : Type} (strat : Strategy τ) (cfg : Config)
    (bars : List ℚ) (s1 : EngineState τ) (price : ℚ) (i : ℕ) :
    EngineState τ :=
  match s1.position with
  | none =>
    if strat.shouldEnterLong s1.strat bars i then
      let o := openLong cfg s1 price i
      { o with strat := strat.updatePosition o.strat (some PosType.LONG)
                          price o.positionSize }
    else if strat.shouldEnterShort s1.strat bars i then
      let o := openShort cfg s1 price i
      { o with strat := strat.updatePosition o.strat (some PosType.SHORT)
                          price o.positionSize }
    else s1
  | some PosType.LONG =>
    if strat.shouldExitLong s1.strat bars i then
      let c := closePosition cfg s1 price i ExitReason.SIGNAL
      { c with strat := strat.updatePosition c.strat none 0 0 }
    else s1
  | some PosType.SHORT =>
    if strat.shouldExitShort s1.strat bars i then
      let c := closePosition cfg s1 price i ExitReason.SIGNAL
      { c with strat := strat.updatePosition c.strat none 0 0 }
    else s1

/-- Body of the per-bar loop of BacktestEngine.run for bar index i: the
stop-loss and take-profit block, then the entry and exit-signal block,
and finally one equity snapshot at the bar's close. -/
def stepBar {τ : Type} (strat : Strategy τ) (cfg : Config) (bars : List ℚ)
    (s : EngineState τ) (i : ℕ) : EngineState τ :=
  let price := bars.getD i 0
  let s2 := runSignals strat cfg bars (runStopTp strat cfg s price i) price i
  { s2 with equityCurve :=
      { timestamp := i, equity := calcEquity s2 price,
        position := s2.position } :: s2.equityCurve }

/-- Engine state at the start of BacktestEngine.run, after the reset block
(capital back to initial, FLAT, empty ledgers, strategy reset). -/
def initState {τ : Type} (strat : Strategy τ) (cfg : Config)
    (σ0 : StratState τ) : EngineState τ :=
  { capital := cfg.initialCapital, position := none, positionSize := 0,
    entryPrice := 0, trades := [], equityCurve := [],
    strat := strat.reset σ0 }

/-- Engine state after the first n iterations of the replay loop of
BacktestEngine.run. -/
def loopState {τ : Type} (strat : Strategy τ) (cfg : Config) (bars : List ℚ)
    (σ0 : StratState τ) (n : ℕ) : EngineState τ :=
  (List.range n).foldl (stepBar strat cfg bars) (initState strat cfg σ0)

/-- BacktestEngine.run as a state transformer: the full replay loop
followed by the forced liquidation (reason FINAL at the last bar's close)
when a position is still open.  The source then packages this state into
the results dict via _calculate_results. -/
def runState {τ : Type} (strat : Strategy τ) (cfg : Config)
    (σ0 : StratState τ) (bars : List ℚ) : EngineState τ :=
  let s := loopState strat cfg bars σ0 bars.length
  match s.position with
  | some _ => closePosition cfg s (bars.getLastD 0) (bars.length - 1)
                ExitReason.FINAL
  | none => s

/-- Realized pnl of a trade record, t.get('pnl', 0) in the source: 0 for a
trade that is still open. -/
def tradePnl (t : Trade) : ℚ :=
  match t.exit with
  | some e => e.pnl
  | none => 0

/-- Entry commission plus exit commission of a closed trade (0 exit
commission while open). -/
def tradeCommissions (t : Trade) : ℚ :=
  match t.exit with
  | some e => t.commission + e.exitCommission
  | none => t.commission

/-- Count of closed trades, len([t for t in trades if 'exit_time' in t]). -/
def totalTradesOf (ts : List Trade) : ℕ :=
  (ts.filter (fun t => t.exit.isSome)).length

/-- Count of trades with positive recorded pnl. -/
def winningTradesOf (ts : List Trade) : ℕ :=
  (ts.filter (fun t => decide (0 < tradePnl t))).length

/-- Count of trades with negative recorded pnl. -/
def losingTradesOf (ts : List Trade) : ℕ :=
  (ts.filter (fun t => decide (tradePnl t < 0))).length

/-- Win rate in percent, 0 when there is no closed trade. -/
def winRateOf (ts : List Trade) : ℚ :=
  if 0 < totalTradesOf ts then
    (winningTradesOf ts : ℚ) / (totalTradesOf ts : ℚ) * 100
  else 0

/-- Mean pnl over winning trades, 0 when there is none. -/
def avgWinOf (ts : List Trade) : ℚ :=
  let ws := (ts.filter (fun t => decide (0 < tradePnl t))).map tradePnl
  if 0 < winningTradesOf ts then ws.sum / (ws.length : ℚ) else 0

/-- Mean pnl over losing trades, 0 when there is none. -/
def avgLossOf (ts : List Trade) : ℚ :=
  let ls := (ts.filter (fun t => decide (tradePnl t < 0))).map tradePnl
  if 0 < losingTradesOf ts then ls.sum / (ls.length : ℚ) else 0

/-- Profit factor abs(avg_win / avg_loss), guarded to 0 when avg_loss is
0. -/
def profitFactorOf (ts : List Trade) : ℚ :=
  if avgLossOf ts ≠ 0 then |avgWinOf ts / avgLossOf ts| else 0

/-- Sum of recorded pnl over the whole ledger. -/
def totalPnlOf (ts : List Trade) : ℚ :=
  (ts.map tradePnl).sum

/-- Chronological equity series of a final engine state (the stored curve
is newest-first). -/
def equitiesOf {τ : Type} (s : EngineState τ) : List ℚ :=
  s.equityCurve.reverse.map (fun p => p.equity)

/-- Running-peak relative drawdowns (equity - cummax) / cummax of the
equity series, carrying the peak so far. -/
def drawdownsFrom (peak : ℚ) : List ℚ → List ℚ
  | [] => []
  | e :: rest =>
    let p := max peak e
    (e - p) / p :: drawdownsFrom p rest

/-- Max drawdown in percent: the minimum of the drawdown series times
100. -/
def maxDrawdownOf (es : List ℚ) : ℚ :=
  match es with
  | [] => 0
  | e :: rest =>
    match drawdownsFrom e (e :: rest) with
    | [] => 0
    | d :: ds => ds.foldl min d * 100

/-- Per-bar equity returns, pandas pct_change: undefined at index 0 and
whenever the previous equity is 0 (a float division by zero there). -/
def pctChange (es : List ℚ) : List (Option ℚ) :=
  none :: List.zipWith
    (fun prev cur => if prev = 0 then none else some ((cur - prev) / prev))
    es es.tail

/-- Defined values of an option sequence, as pandas mean and std skip
NaN. -/
def validOf (rs : List (Option ℚ)) : List ℚ := rs.filterMap id

/-- Mean of the defined per-bar returns, undefined when there is none. -/
def retMeanOf (es : List ℚ) : Option ℚ :=
  let v := validOf (pctChange es)
  if v.length = 0 then none else some (v.sum / (v.length : ℚ))

/-- Sample variance (ddof 1, the pandas std default squared) of the
defined per-bar returns, undefined for fewer than two values. -/
def retVarOf (es : List ℚ) : Option ℚ :=
  let v := validOf (pctChange es)
  if v.length < 2 then none
  else
    let m := v.sum / (v.length : ℚ)
    some ((v.map (fun x => (x - m) ^ 2)).sum / ((v.length : ℚ) - 1))

/-- Sharpe ratio mean/std * sqrt(252) with the source's guard: 0 whenever
the returns std is not positive (including the all-NaN and single-value
cases where pandas yields NaN).  The std of the source is the square root
of the sample variance, so std is positive exactly when the variance is,
which is how the guard is phrased here; the square roots force this one
definition into the reals. -/
noncomputable def sharpeOf (es : List ℚ) : ℝ :=
  match retMeanOf es, retVarOf es with
  | some m, some v =>
    if 0 < v then ((m : ℝ) / Real.sqrt (v : ℝ)) * Real.sqrt 252 else 0
  | _, _ => 0

/-- Computable fields of the results dict built by
BacktestEngine._calculate_results (the sharpe_ratio entry is the separate
real-valued sharpeOf of the equity series). -/
structure Results where
  initialCapital : ℚ
  finalCapital : ℚ
  totalReturn : ℚ
  totalPnl : ℚ
  totalTrades : ℕ
  winningTrades : ℕ
  losingTrades : ℕ
  winRate : ℚ
  avgWin : ℚ
  avgLoss : ℚ
  profitFactor : ℚ
  maxDrawdown : ℚ
  trades : List Trade
  equityCurve : List EquityPoint
deriving DecidableEq

/-- BacktestEngine._calculate_results applied to a final engine state. -/
def calculateResults {τ : Type} (cfg : Config) (s : EngineState τ) : Results :=
  { initialCapital := cfg.initialCapital
    finalCapital := s.capital
    totalReturn := (s.capital - cfg.initialCapital) / cfg.initialCapital * 100
    totalPnl := totalPnlOf s.trades
    totalTrades := totalTradesOf s.trades
    winningTrades := winningTradesOf s.trades
    losingTrades := losingTradesOf s.trades
    winRate := winRateOf s.trades
    avgWin := avgWinOf s.trades
    avgLoss := avgLossOf s.trades
    profitFactor := profitFactorOf s.trades
    maxDrawdown := maxDrawdownOf (equitiesOf s)
    trades := s.trades.reverse
    equityCurve := s.equityCurve.reverse }

/-- BacktestEngine.run end to end: replay, forced liquidation, results. -/
def backtestRun {τ : Type} (strat : Strategy τ) (cfg : Config)
    (σ0 : StratState τ) (bars : List ℚ) : Results :=
  calculateResults cfg (runState strat cfg σ0 bars)

/-- Strategy state with no subclass-private data, starting FLAT, as set by
BaseStrategy.__init__. -/
def sig0 : StratState Unit :=
  { position := none, entryPrice := 0, positionSize := 0, priv := () }

/-- Concrete strategy for the worked scenario of the spec: enter LONG on
the first bar, exit by signal on the second, no stop-loss or take-profit
trigger. -/
def stratWorked : Strategy Unit :=
  { shouldEnterLong := fun _ _ i => i == 0
    shouldEnterShort := fun _ _ _ => false
    shouldExitLong := fun _ _ i => i == 1
    shouldExitShort := fun _ _ _ => false
    checkStopLoss := fun _ _ => false
    checkTakeProfit := fun _ _ => false
    updatePosition := baseUpdatePosition
    reset := id }

/-- Configuration of the spec's worked scenario: initial capital 10000,
commission 0.001, slippage 0.0005, max position size 0.5. -/
def cfgWorked : Config :=
  { initialCapital := 10000, commission := 1 / 1000, slippage := 1 / 2000,
    maxPositionSize := 1 / 2 }

/-- Counterexample to the worked-scenario figures: on the exact rational
arithmetic of the engine, the proceeds are about 5494.50 (not 5494.01),
the capital after exit about 10484.01 (not 10483.52) and the pnl
percentage about 9.89 (not 9.88); each differs from the quoted figure by
more than the two-decimal precision at which it was quoted. -/
theorem claim_C4_counterexample :
    ((runState stratWorked cfgWorked sig0 [100, 110]).capital
        - 1048352 / 100 > 2 / 5) ∧
    (∀ t ∈ (runState stratWorked cfgWorked sig0 [100, 110]).trades,
      (t.exit.elim 0 (fun e => e.exitPrice)) * t.size - 549401 / 100 > 2 / 5 ∧
      t.exit.elim 0 (fun e => e.pnlPct) - 988 / 100 > 1 / 100) ∧
    (runState stratWorked cfgWorked sig0 [100, 110]).trades.length = 1 := by
  norm_num [runState, loopState, stepBar, runStopTp, runSignals, openLong,
    openShort, closePosition, calcEquity, initState, baseUpdatePosition,
    stratWorked, cfgWorked, sig0, List.range_succ]

/-- Amended worked scenario, proved exactly: entry effective price 100.05,
size 100000/2001 (about 49.975), entry commission 5 so total entry cost
5005, capital after entry 4995, exit effective price 109.945, proceeds
10994500/2001 (about 5494.50), exit commission 21989/4002 (about 5.49),
capital after exit 41957001/4002 (about 10484.01), realized pnl
989500/2001 (about 494.50), pnl percentage 19790/2001 (about 9.89), exit
reason SIGNAL. -/
theorem claim_C4_amended :
    (runState stratWorked cfgWorked sig0 [100, 110]).trades =
      [{ entryTime := 0, entryPrice := 2001 / 20, positionType := PosType.LONG,
         size := 100000 / 2001, commission := 5,
         exit := some { exitTime := 1, exitPrice := 21989 / 200,
                        exitReason := ExitReason.SIGNAL, pnl := 989500 / 2001,
                        pnlPct := 19790 / 2001,
                        exitCommission := 21989 / 4002 } }] ∧
    (loopState stratWorked cfgWorked [100, 110] sig0 1).capital = 4995 ∧
    (runState stratWorked cfgWorked sig0 [100, 110]).capital =
      41957001 / 4002 := by
  norm_num [runState, loopState, stepBar, runStopTp, runSignals, openLong,
    openShort, closePosition, calcEquity, initState, baseUpdatePosition,
    stratWorked, cfgWorked, sig0, List.range_succ]

/-- Total cost of a long entry as _open_long computes it from the current
capital and the raw price: size times effective price plus commission. -/
def longEntryCost (cfg : Config) (capital price : ℚ) : ℚ :=
  let actualPrice := price * (1 + cfg.slippage)
  let size := capital * cfg.maxPositionSize / actualPrice
  let cost := size * actualPrice
  cost + cost * cfg.commission

/-- Size of an entry as _open_long and _open_short compute it: notional
capital times max_position_size divided by the effective price. -/
def entrySizeAt (cfg : Config) (capital effPrice : ℚ) : ℚ :=
  capital * cfg.maxPositionSize / effPrice

/-- Claim C5: when the total entry cost of a long open exceeds the
available capital, the bar leaves capital, position and the trade ledger
untouched, the engine stays FLAT, and the loop still records its equity
snapshot for the bar and proceeds (the embedding is total, so no exception
can arise). -/
theorem claim_C5 {τ : Type} (strat : Strategy τ) (cfg : Config)
    (bars : List ℚ) (s : EngineState τ) (i : ℕ)
    (hflat : s.position = none)
    (hsig : strat.shouldEnterLong s.strat bars i = true)
    (hcost : longEntryCost cfg s.capital (bars.getD i 0) > s.capital) :
    (stepBar strat cfg bars s i).capital = s.capital ∧
    (stepBar strat cfg bars s i).position = none ∧
    (stepBar strat cfg bars s i).trades = s.trades ∧
    (stepBar strat cfg bars s i).equityCurve =
      { timestamp := i, equity := s.capital, position := none }
        :: s.equityCurve := by
  have hcost2 := hcost
  simp only [longEntryCost] at hcost2
  have hopen : openLong cfg s (bars.getD i 0) i =
      { s with positionSize :=
          entrySizeAt cfg s.capital (bars.getD i 0 * (1 + cfg.slippage)) } := by
    simp only [openLong, entrySizeAt]
    rw [if_pos hcost2]
  simp only [stepBar, runStopTp, runSignals, hflat, hsig, if_true, hopen,
    calcEquity]
  refine ⟨?_, ?_, ?_, ?_⟩ <;> trivial

/-- Strategy that tries to enter long on every bar and does nothing
else. -/
def stratAlwaysLong : Strategy Unit :=
  { shouldEnterLong := fun _ _ _ => true
    shouldEnterShort := fun _ _ _ => false
    shouldExitLong := fun _ _ _ => false
    shouldExitShort := fun _ _ _ => false
    checkStopLoss := fun _ _ => false
    checkTakeProfit := fun _ _ => false
    updatePosition := baseUpdatePosition
    reset := id }

/-- Configuration whose full-fraction sizing plus commission always
exceeds the available capital, so every long open is skipped. -/
def cfgTight : Config :=
  { initialCapital := 100, commission := 1 / 1000, slippage := 0,
    maxPositionSize := 1 }

/-- Witness for claim C5 at a concrete input: with capital 100, full
sizing and commission 0.001 the entry cost 100.1 exceeds 100, and the bar
changes nothing but the equity curve. -/
theorem claim_C5_witness :
    ((initState stratAlwaysLong cfgTight sig0).position = none ∧
     stratAlwaysLong.shouldEnterLong (initState stratAlwaysLong cfgTight sig0).strat
       [100] 0 = true ∧
     longEntryCost cfgTight (initState stratAlwaysLong cfgTight sig0).capital
       ([100].getD 0 0) > (initState stratAlwaysLong cfgTight sig0).capital) ∧
    ((stepBar stratAlwaysLong cfgTight [100]
        (initState stratAlwaysLong cfgTight sig0) 0).capital =
      (initState stratAlwaysLong cfgTight sig0).capital ∧
     (stepBar stratAlwaysLong cfgTight [100]
        (initState stratAlwaysLong cfgTight sig0) 0).position = none ∧
     (stepBar stratAlwaysLong cfgTight [100]
        (initState stratAlwaysLong cfgTight sig0) 0).trades =
      (initState stratAlwaysLong cfgTight sig0).trades ∧
     (stepBar stratAlwaysLong cfgTight [100]
        (initState stratAlwaysLong cfgTight sig0) 0).equityCurve =
      { timestamp := 0,
        equity := (initState stratAlwaysLong cfgTight sig0).capital,
        position := none }
        :: (initState stratAlwaysLong cfgTight sig0).equityCurve) :=
  ⟨⟨rfl, rfl, by norm_num [longEntryCost, cfgTight, initState]⟩,
   claim_C5 stratAlwaysLong cfgTight [100]
     (initState stratAlwaysLong cfgTight sig0) 0 rfl rfl
     (by norm_num [longEntryCost, cfgTight, initState])⟩

/-- Claim C10: a short open performs no capital check: whenever the engine
is FLAT and the short-entry signal fires (with no long signal), the short
is opened, a trade record is appended, and capital immediately grows by
size times price times (1 - slippage) times (1 - commission), whatever the
current capital is. -/
theorem claim_C10 {τ : Type} (strat : Strategy τ) (cfg : Config)
    (bars : List ℚ) (s : EngineState τ) (i : ℕ)
    (hflat : s.position = none)
    (hnol : strat.shouldEnterLong s.strat bars i = false)
    (hsig : strat.shouldEnterShort s.strat bars i = true) :
    (stepBar strat cfg bars s i).position = some PosType.SHORT ∧
    (stepBar strat cfg bars s i).trades =
      { entryTime := i,
        entryPrice := bars.getD i 0 * (1 - cfg.slippage),
        positionType := PosType.SHORT,
        size := entrySizeAt cfg s.capital (bars.getD i 0 * (1 - cfg.slippage)),
        commission :=
          entrySizeAt cfg s.capital (bars.getD i 0 * (1 - cfg.slippage)) *
            (bars.getD i 0 * (1 - cfg.slippage)) * cfg.commission,
        exit := none } :: s.trades ∧
    (stepBar strat cfg bars s i).capital =
      s.capital + entrySizeAt cfg s.capital (bars.getD i 0 * (1 - cfg.slippage)) *
        (bars.getD i 0) * (1 - cfg.slippage) * (1 - cfg.commission) := by
  simp only [stepBar, runStopTp, runSignals, hflat, hnol, hsig, if_false,
    if_true, openShort, entrySizeAt, Bool.false_eq_true]
  refine ⟨?_, ?_, ?_⟩
  · trivial
  · trivial
  · ring

/-- Strategy that enters short on every bar and does nothing else. -/
def stratAlwaysShort : Strategy Unit :=
  { shouldEnterLong := fun _ _ _ => false
    shouldEnterShort := fun _ _ _ => true
    shouldExitLong := fun _ _ _ => false
    shouldExitShort := fun _ _ _ => false
    checkStopLoss := fun _ _ => false
    checkTakeProfit := fun _ _ => false
    updatePosition := baseUpdatePosition
    reset := id }

/-- Witness for claim C10 at a concrete input: first bar of a run of
stratAlwaysShort under the tight configuration of claim C5, where a long
open would have been skipped for lack of capital yet the short opens
unconditionally. -/
theorem claim_C10_witness :
    ((initState stratAlwaysShort cfgTight sig0).position = none ∧
     stratAlwaysShort.shouldEnterLong
       (initState stratAlwaysShort cfgTight sig0).strat [100] 0 = false ∧
     stratAlwaysShort.shouldEnterShort
       (initState stratAlwaysShort cfgTight sig0).strat [100] 0 = true) ∧
    ((stepBar stratAlwaysShort cfgTight [100]
        (initState stratAlwaysShort cfgTight sig0) 0).position =
          some PosType.SHORT ∧
     (stepBar stratAlwaysShort cfgTight [100]
        (initState stratAlwaysShort cfgTight sig0) 0).trades =
      { entryTime := 0,
        entryPrice := [(100 : ℚ)].getD 0 0 * (1 - cfgTight.slippage),
        positionType := PosType.SHORT,
        size := entrySizeAt cfgTight
          (initState stratAlwaysShort cfgTight sig0).capital
          ([(100 : ℚ)].getD 0 0 * (1 - cfgTight.slippage)),
        commission := entrySizeAt cfgTight
            (initState stratAlwaysShort cfgTight sig0).capital
            ([(100 : ℚ)].getD 0 0 * (1 - cfgTight.slippage)) *
          ([(100 : ℚ)].getD 0 0 * (1 - cfgTight.slippage)) * cfgTight.commission,
        exit := none } :: (initState stratAlwaysShort cfgTight sig0).trades ∧
     (stepBar stratAlwaysShort cfgTight [100]
        (initState stratAlwaysShort cfgTight sig0) 0).capital =
      (initState stratAlwaysShort cfgTight sig0).capital +
        entrySizeAt cfgTight (initState stratAlwaysShort cfgTight sig0).capital
          ([(100 : ℚ)].getD 0 0 * (1 - cfgTight.slippage)) *
          ([(100 : ℚ)].getD 0 0) * (1 - cfgTight.slippage) *
          (1 - cfgTight.commission)) :=
  ⟨⟨rfl, rfl, rfl⟩,
   claim_C10 stratAlwaysShort cfgTight [100]
     (initState stratAlwaysShort cfgTight sig0) 0 rfl rfl rfl⟩

/-- Replay loop unfolding: processing n + 1 bars is processing n bars and
then stepping once more. -/
theorem loopState_succ {τ : Type} (strat : Strategy τ) (cfg : Config)
    (bars : List ℚ) (σ0 : StratState τ) (n : ℕ) :
    loopState strat cfg bars σ0 (n + 1) =
      stepBar strat cfg bars (loopState strat cfg bars σ0 n) n := by
  unfold loopState
  rw [List.range_succ, List.foldl_append]
  rfl

/-- In a run whose entry signals never fire, every loop state keeps the
initial capital, a FLAT position, an empty ledger, and the reset strategy
state. -/
theorem flatLoop {τ : Type} (strat : Strategy τ) (cfg : Config)
    (bars : List ℚ) (σ0 : StratState τ)
    (hEL : ∀ σ bs j, strat.shouldEnterLong σ bs j = false)
    (hES : ∀ σ bs j, strat.shouldEnterShort σ bs j = false) :
    ∀ n, (loopState strat cfg bars σ0 n).capital = cfg.initialCapital ∧
      (loopState strat cfg bars σ0 n).position = none ∧
      (loopState strat cfg bars σ0 n).trades = [] ∧
      (loopState strat cfg bars σ0 n).strat = strat.reset σ0 := by
  intro n
  induction n with
  | zero => exact ⟨rfl, rfl, rfl, rfl⟩
  | succ k ih =>
    rw [loopState_succ]
    obtain ⟨hc, hp, ht, hs⟩ := ih
    simp only [stepBar, runStopTp, runSignals, hp, hEL, hES,
      Bool.false_eq_true, if_false]
    exact ⟨hc, trivial, ht, hs⟩


/-- Claim C8: if no decision method of the strategy ever returns true, the
run reports zero trades and a final capital exactly equal to the initial
capital. -/
theorem claim_C8 {τ : Type} (strat : Strategy τ) (cfg : Config)
    (σ0 : StratState τ) (bars : List ℚ)
    (hEL : ∀ σ bs j, strat.shouldEnterLong σ bs j = false)
    (hES : ∀ σ bs j, strat.shouldEnterShort σ bs j = false)
    (hXL : ∀ σ bs j, strat.shouldExitLong σ bs j = false)
    (hXS : ∀ σ bs j, strat.shouldExitShort σ bs j = false)
    (hSL : ∀ σ p, strat.checkStopLoss σ p = false)
    (hTP : ∀ σ p, strat.checkTakeProfit σ p = false) :
    (backtestRun strat cfg σ0 bars).totalTrades = 0 ∧
    (backtestRun strat cfg σ0 bars).finalCapital = cfg.initialCapital := by
  obtain ⟨hc, hp, ht, _⟩ := flatLoop strat cfg bars σ0 hEL hES bars.length
  unfold backtestRun runState
  simp only [hp, calculateResults, ht, hc]
  refine ⟨?_, ?_⟩ <;> trivial

/-- Strategy whose decision methods all return false on every input. -/
def stratFlat : Strategy Unit :=
  { shouldEnterLong := fun _ _ _ => false
    shouldEnterShort := fun _ _ _ => false
    shouldExitLong := fun _ _ _ => false
    shouldExitShort := fun _ _ _ => false
    checkStopLoss := fun _ _ => false
    checkTakeProfit := fun _ _ => false
    updatePosition := baseUpdatePosition
    reset := id }

/-- Witness for claim C8 at a concrete input: the all-false strategy on a
three-bar series keeps the initial capital of 10000 and trades zero
times. -/
theorem claim_C8_witness :
    (backtestRun stratFlat cfgWorked sig0 [5, 6, 7]).totalTrades = 0 ∧
    (backtestRun stratFlat cfgWorked sig0 [5, 6, 7]).finalCapital =
      cfgWorked.initialCapital :=
  claim_C8 stratFlat cfgWorked sig0 [5, 6, 7]
    (fun _ _ _ => rfl) (fun _ _ _ => rfl) (fun _ _ _ => rfl)
    (fun _ _ _ => rfl) (fun _ _ => rfl) (fun _ _ => rfl)

/-- Net effect of a trade record on capital relative to the start of the
run: a closed trade contributes its pnl minus both commissions; an open
trade contributes the cash flow of its entry leg (money out for a long
buy, money in for a short sell). -/
def tradeNet (t : Trade) : ℚ :=
  match t.exit with
  | some e => e.pnl - t.commission - e.exitCommission
  | none =>
    match t.positionType with
    | PosType.LONG => -(t.size * t.entryPrice + t.commission)
    | PosType.SHORT => t.size * t.entryPrice - t.commission

/-- Sum of the net capital effects of all trade records. -/
def ledgerNet (ts : List Trade) : ℚ := (ts.map tradeNet).sum

/-- Every trade in the list has been closed. -/
def allClosed (ts : List Trade) : Prop := ∀ t ∈ ts, t.exit.isSome = true

/-- Accounting invariant of the replay loop: capital always equals the
initial capital plus the ledger's net effect, and the ledger head is the
unique open trade matching the live position (if any) while every other
trade is closed. -/
def Inv (cfg : Config) {τ : Type} (s : EngineState τ) : Prop :=
  s.capital = cfg.initialCapital + ledgerNet s.trades ∧
  ((s.position = none ∧ allClosed s.trades) ∨
   (∃ pt t rest, s.position = some pt ∧ s.trades = t :: rest ∧
     t.exit = none ∧ t.positionType = pt ∧ t.size = s.positionSize ∧
     t.entryPrice = s.entryPrice ∧ allClosed rest))

theorem inv_openLong {τ : Type} (cfg : Config) (s : EngineState τ)
    (price : ℚ) (time : ℕ) (hpos : s.position = none) (hinv : Inv cfg s) :
    Inv cfg (openLong cfg s price time) := by
  obtain ⟨hcap, hrest⟩ := hinv
  have hclosed : allClosed s.trades := by
    rcases hrest with ⟨_, h⟩ | ⟨pt, _, _, hp, _⟩
    · exact h
    · rw [hpos] at hp; exact absurd hp (by simp)
  simp only [openLong]
  split
  · exact ⟨hcap, Or.inl ⟨hpos, hclosed⟩⟩
  · constructor
    · simp only [ledgerNet, List.map_cons, List.sum_cons, tradeNet]
      simp only [ledgerNet] at hcap
      rw [hcap]
      ring
    · exact Or.inr ⟨PosType.LONG, _, s.trades,
        rfl, rfl, rfl, rfl, rfl, rfl, hclosed⟩

theorem inv_openShort {τ : Type} (cfg : Config) (s : EngineState τ)
    (price : ℚ) (time : ℕ) (hpos : s.position = none) (hinv : Inv cfg s) :
    Inv cfg (openShort cfg s price time) := by
  obtain ⟨hcap, hrest⟩ := hinv
  have hclosed : allClosed s.trades := by
    rcases hrest with ⟨_, h⟩ | ⟨pt, _, _, hp, _⟩
    · exact h
    · rw [hpos] at hp; exact absurd hp (by simp)
  constructor
  · simp only [openShort, ledgerNet, List.map_cons, List.sum_cons, tradeNet]
    simp only [ledgerNet] at hcap
    rw [hcap]
    ring
  · exact Or.inr ⟨PosType.SHORT, _, s.trades,
      rfl, rfl, rfl, rfl, rfl, rfl, hclosed⟩

theorem inv_close {τ : Type} (cfg : Config) (s : EngineState τ)
    (price : ℚ) (time : ℕ) (reason : ExitReason) (hinv : Inv cfg s) :
    Inv cfg (closePosition cfg s price time reason) := by
  obtain ⟨hcap, hrest⟩ := hinv
  rcases hrest with ⟨hpos, hclosed⟩ | ⟨pt, t, rest, hpos, htr, hopen, hty, hsz, hep, hclosed⟩
  · simp only [closePosition, hpos]
    exact ⟨hcap, Or.inl ⟨hpos, hclosed⟩⟩
  · rw [htr] at hcap
    simp only [ledgerNet, List.map_cons, List.sum_cons] at hcap
    simp only [closePosition, hpos, htr]
    cases pt with
    | LONG =>
      refine ⟨?_, Or.inl ⟨rfl, ?_⟩⟩
      · simp only [ledgerNet, List.map_cons, List.sum_cons, tradeNet]
        rw [tradeNet, hopen, hty] at hcap
        rw [hcap, hsz, hep]
        ring
      · intro u hu
        rcases List.mem_cons.mp hu with h | h
        · rw [h]; rfl
        · exact hclosed u h
    | SHORT =>
      refine ⟨?_, Or.inl ⟨rfl, ?_⟩⟩
      · simp only [ledgerNet, List.map_cons, List.sum_cons, tradeNet]
        rw [tradeNet, hopen, hty] at hcap
        rw [hcap, hsz, hep]
        ring
      · intro u hu
        rcases List.mem_cons.mp hu with h | h
        · rw [h]; rfl
        · exact hclosed u h

/-- Changing only the strategy field of a state preserves the accounting
invariant, which never mentions that field. -/
theorem inv_setStrat {τ : Type} (cfg : Config) (s : EngineState τ)
    (σ : StratState τ) (hinv : Inv cfg s) :
    Inv cfg { s with strat := σ } := hinv

/-- Appending an equity snapshot preserves the accounting invariant. -/
theorem inv_snap {τ : Type} (cfg : Config) (s : EngineState τ)
    (p : EquityPoint) (hinv : Inv cfg s) :
    Inv cfg { s with equityCurve := p :: s.equityCurve } := hinv

theorem inv_runStopTp {τ : Type} (strat : Strategy τ) (cfg : Config)
    (s : EngineState τ) (price : ℚ) (i : ℕ) (hinv : Inv cfg s) :
    Inv cfg (runStopTp strat cfg s price i) := by
  rcases hp : s.position with _ | pt
  · simp only [runStopTp, hp]
    exact hinv
  · simp only [runStopTp, hp]
    split
    · exact inv_setStrat _ _ _ (inv_close _ _ _ _ _ hinv)
    · split
      · exact inv_setStrat _ _ _ (inv_close _ _ _ _ _ hinv)
      · exact hinv

theorem inv_runSignals {τ : Type} (strat : Strategy τ) (cfg : Config)
    (bars : List ℚ) (s1 : EngineState τ) (price : ℚ) (i : ℕ)
    (hinv : Inv cfg s1) :
    Inv cfg (runSignals strat cfg bars s1 price i) := by
  rcases hp : s1.position with _ | pt
  · simp only [runSignals, hp]
    split
    · exact inv_setStrat _ _ _ (inv_openLong _ _ _ _ hp hinv)
    · split
      · exact inv_setStrat _ _ _ (inv_openShort _ _ _ _ hp hinv)
      · exact hinv
  · cases pt with
    | LONG =>
      simp only [runSignals, hp]
      split
      · exact inv_setStrat _ _ _ (inv_close _ _ _ _ _ hinv)
      · exact hinv
    | SHORT =>
      simp only [runSignals, hp]
      split
      · exact inv_setStrat _ _ _ (inv_close _ _ _ _ _ hinv)
      · exact hinv

theorem inv_step {τ : Type} (strat : Strategy τ) (cfg : Config)
    (bars : List ℚ) (s : EngineState τ) (i : ℕ) (hinv : Inv cfg s) :
    Inv cfg (stepBar strat cfg bars s i) :=
  inv_snap _ _ _
    (inv_runSignals _ _ _ _ _ _ (inv_runStopTp _ _ _ _ _ hinv))

theorem inv_loop {τ : Type} (strat : Strategy τ) (cfg : Config)
    (bars : List ℚ) (σ0 : StratState τ) (n : ℕ) :
    Inv cfg (loopState strat cfg bars σ0 n) := by
  induction n with
  | zero =>
    show Inv cfg (initState strat cfg σ0)
    refine ⟨?_, Or.inl ⟨rfl, ?_⟩⟩
    · simp [initState, ledgerNet]
    · intro t ht
      exact absurd ht (List.not_mem_nil t)
  | succ k ih =>
    rw [loopState_succ]
    exact inv_step _ _ _ _ _ ih

theorem inv_run {τ : Type} (strat : Strategy τ) (cfg : Config)
    (σ0 : StratState τ) (bars : List ℚ) :
    Inv cfg (runState strat cfg σ0 bars) := by
  unfold runState
  have h := inv_loop strat cfg bars σ0 bars.length
  rcases hp : (loopState strat cfg bars σ0 bars.length).position with _ | pt
  · simp only [hp]
    exact h
  · simp only [hp]
    exact inv_close _ _ _ _ _ h

/-- A run always ends FLAT: either the loop ended FLAT, or the forced
liquidation (whose open-trade head is guaranteed by the invariant)
flattened the position. -/
theorem run_position_none {τ : Type} (strat : Strategy τ) (cfg : Config)
    (σ0 : StratState τ) (bars : List ℚ) :
    (runState strat cfg σ0 bars).position = none := by
  unfold runState
  have h := inv_loop strat cfg bars σ0 bars.length
  rcases hp : (loopState strat cfg bars σ0 bars.length).position with _ | pt
  · simp only [hp]
  · simp only [hp]
    rcases h.2 with ⟨hpn, _⟩ | ⟨pt2, t, rest, hp2, htr, _⟩
    · rw [hp] at hpn
      cases hpn
    · simp only [closePosition, hp, htr]

/-- A run always ends with a fully closed ledger. -/
theorem run_allClosed {τ : Type} (strat : Strategy τ) (cfg : Config)
    (σ0 : StratState τ) (bars : List ℚ) :
    allClosed (runState strat cfg σ0 bars).trades := by
  have h := inv_run strat cfg σ0 bars
  rcases h.2 with ⟨_, hc⟩ | ⟨pt, t, rest, hp, htr, _⟩
  · exact hc
  · rw [run_position_none strat cfg σ0 bars] at hp
    cases hp

/-- Sum over a fully closed ledger of pnl minus both commissions equals
the ledger's net capital effect. -/
theorem ledgerNet_closed (ts : List Trade) (h : allClosed ts) :
    ledgerNet ts = totalPnlOf ts - (ts.map tradeCommissions).sum := by
  induction ts with
  | nil => simp [ledgerNet, totalPnlOf]
  | cons t rest ih =>
    have ht : t.exit.isSome = true := h t (List.mem_cons_self t rest)
    have hrest : allClosed rest := fun u hu => h u (List.mem_cons_of_mem t hu)
    obtain ⟨e, he⟩ := Option.isSome_iff_exists.mp ht
    simp only [ledgerNet, totalPnlOf, List.map_cons, List.sum_cons] at *
    rw [ih hrest, tradeNet, tradePnl, tradeCommissions, he]
    simp only []
    ring

/-- Claim C2: for every completed run, the final capital equals the
initial capital plus the sum of realized pnl minus the sum of entry and
exit commissions over all (necessarily closed) trades, as an exact
identity of rationals. -/
theorem claim_C2 {τ : Type} (strat : Strategy τ) (cfg : Config)
    (σ0 : StratState τ) (bars : List ℚ) :
    allClosed (runState strat cfg σ0 bars).trades ∧
    (runState strat cfg σ0 bars).capital =
      cfg.initialCapital + totalPnlOf (runState strat cfg σ0 bars).trades -
        ((runState strat cfg σ0 bars).trades.map tradeCommissions).sum := by
  refine ⟨run_allClosed strat cfg σ0 bars, ?_⟩
  have h := (inv_run strat cfg σ0 bars).1
  rw [h, ledgerNet_closed _ (run_allClosed strat cfg σ0 bars)]
  ring

/-- Closing a position never touches the equity curve. -/
theorem closePosition_curve {τ : Type} (cfg : Config) (s : EngineState τ)
    (price : ℚ) (time : ℕ) (reason : ExitReason) :
    (closePosition cfg s price time reason).equityCurve = s.equityCurve := by
  cases hp : s.position <;> cases ht : s.trades <;>
    simp only [closePosition, hp, ht]

/-- The stop-loss and take-profit block never touches the equity curve. -/
theorem runStopTp_curve {τ : Type} (strat : Strategy τ) (cfg : Config)
    (s : EngineState τ) (price : ℚ) (i : ℕ) :
    (runStopTp strat cfg s price i).equityCurve = s.equityCurve := by
  rcases hp : s.position with _ | pt
  · simp only [runStopTp, hp]
  · simp only [runStopTp, hp]
    split
    · exact closePosition_curve _ _ _ _ _
    · split
      · exact closePosition_curve _ _ _ _ _
      · rfl

/-- The entry and exit-signal block never touches the equity curve. -/
theorem runSignals_curve {τ : Type} (strat : Strategy τ) (cfg : Config)
    (bars : List ℚ) (s1 : EngineState τ) (price : ℚ) (i : ℕ) :
    (runSignals strat cfg bars s1 price i).equityCurve = s1.equityCurve := by
  rcases hp : s1.position with _ | pt
  · simp only [runSignals, hp]
    split
    · simp only [openLong]
      split <;> rfl
    · split
      · rfl
      · rfl
  · cases pt with
    | LONG =>
      simp only [runSignals, hp]
      split
      · exact closePosition_curve _ _ _ _ _
      · rfl
    | SHORT =>
      simp only [runSignals, hp]
      split
      · exact closePosition_curve _ _ _ _ _
      · rfl

/-- Each bar appends exactly one snapshot, and that snapshot records the
position held at the end of the bar. -/
theorem stepBar_curve {τ : Type} (strat : Strategy τ) (cfg : Config)
    (bars : List ℚ) (s : EngineState τ) (i : ℕ) :
    ∃ q : ℚ, (stepBar strat cfg bars s i).equityCurve =
      { timestamp := i, equity := q,
        position := (stepBar strat cfg bars s i).position }
        :: s.equityCurve := by
  refine ⟨calcEquity
    (runSignals strat cfg bars (runStopTp strat cfg s (bars.getD i 0) i)
      (bars.getD i 0) i) (bars.getD i 0), ?_⟩
  simp only [stepBar]
  rw [runSignals_curve, runStopTp_curve]

/-- The loop records one snapshot per processed bar. -/
theorem loop_curve_len {τ : Type} (strat : Strategy τ) (cfg : Config)
    (bars : List ℚ) (σ0 : StratState τ) :
    ∀ n, (loopState strat cfg bars σ0 n).equityCurve.length = n := by
  intro n
  induction n with
  | zero => rfl
  | succ k ih =>
    rw [loopState_succ]
    obtain ⟨q, hq⟩ := stepBar_curve strat cfg bars (loopState strat cfg bars σ0 k) k
    rw [hq, List.length_cons, ih]

/-- In chronological order, the i-th snapshot of the loop records the
position held after bar i was processed. -/
theorem loop_curve_pos {τ : Type} (strat : Strategy τ) (cfg : Config)
    (bars : List ℚ) (σ0 : StratState τ) :
    ∀ n i, i < n →
      ((loopState strat cfg bars σ0 n).equityCurve.reverse.getD i
        dfltPoint).position = (loopState strat cfg bars σ0 (i + 1)).position := by
  intro n
  induction n with
  | zero => intro i h; omega
  | succ k ih =>
    intro i hi
    rw [loopState_succ]
    obtain ⟨q, hq⟩ := stepBar_curve strat cfg bars (loopState strat cfg bars σ0 k) k
    rw [hq, List.reverse_cons]
    rcases Nat.lt_or_ge i k with h | h
    · rw [List.getD_append _ _ _ _ (by
        rw [List.length_reverse, loop_curve_len]; exact h)]
      exact ih i h
    · have hik : i = k := by omega
      subst hik
      rw [List.getD_append_right _ _ _ _ (by
        rw [List.length_reverse, loop_curve_len])]
      rw [List.length_reverse, loop_curve_len]
      simp only [Nat.sub_self, List.getD_cons_zero]
      rw [← loopState_succ]

/-- The forced liquidation does not touch the equity curve, so the run's
curve is the loop's curve. -/
theorem runState_curve {τ : Type} (strat : Strategy τ) (cfg : Config)
    (σ0 : StratState τ) (bars : List ℚ) :
    (runState strat cfg σ0 bars).equityCurve =
      (loopState strat cfg bars σ0 bars.length).equityCurve := by
  unfold runState
  rcases hp : (loopState strat cfg bars σ0 bars.length).position with _ | pt
  · simp only [hp]
  · simp only [hp]
    exact closePosition_curve _ _ _ _ _

/-- The position can flip from one non-FLAT side directly to the other
within a single bar only if the stop-loss or the take-profit check fired
on that bar (closing the old side before the opposite entry). -/
theorem stepBar_flip {τ : Type} (strat : Strategy τ) (cfg : Config)
    (bars : List ℚ) (s : EngineState τ) (i : ℕ) (a b : PosType)
    (hsa : s.position = some a)
    (hsb : (stepBar strat cfg bars s i).position = some b)
    (hab : a ≠ b) :
    strat.checkStopLoss s.strat (bars.getD i 0) = true ∨
    strat.checkTakeProfit s.strat (bars.getD i 0) = true := by
  by_cases h1 : strat.checkStopLoss s.strat (bars.getD i 0) = true
  · exact Or.inl h1
  by_cases h2 : strat.checkTakeProfit s.strat (bars.getD i 0) = true
  · exact Or.inr h2
  exfalso
  have hsame : runStopTp strat cfg s (bars.getD i 0) i = s := by
    simp only [runStopTp, hsa]
    rw [if_neg h1, if_neg h2]
  have hclose : ∀ price time reason,
      (closePosition cfg s price time reason).position = none ∨
      (closePosition cfg s price time reason).position = s.position := by
    intro price time reason
    cases hp : s.position <;> cases ht : s.trades <;>
      simp only [closePosition, hp, ht] <;> simp
  have hpos : (stepBar strat cfg bars s i).position = none ∨
      (stepBar strat cfg bars s i).position = some a := by
    simp only [stepBar, hsame]
    cases a with
    | LONG =>
      simp only [runSignals, hsa]
      split
      · rcases hclose (bars.getD i 0) i ExitReason.SIGNAL with h | h
        · exact Or.inl h
        · rw [hsa] at h
          exact Or.inr h
      · exact Or.inr hsa
    | SHORT =>
      simp only [runSignals, hsa]
      split
      · rcases hclose (bars.getD i 0) i ExitReason.SIGNAL with h | h
        · exact Or.inl h
        · rw [hsa] at h
          exact Or.inr h
      · exact Or.inr hsa
  rcases hpos with h | h
  · rw [hsb] at h
    cases h
  · rw [hsb] at h
    exact hab (Option.some_injective _ h.symm)

/-- Amended claim C3: in the recorded equity snapshot sequence, a direct
transition between two different non-FLAT position types with no
intervening FLAT snapshot can occur, but only within a single bar on
which the strategy's stop-loss or take-profit fired, closing the old
position before the opposite entry opened on that same bar. -/
theorem claim_C3_amended {τ : Type} (strat : Strategy τ) (cfg : Config)
    (σ0 : StratState τ) (bars : List ℚ) (i : ℕ) (a b : PosType)
    (ha : (((runState strat cfg σ0 bars).equityCurve.reverse.getD i
      dfltPoint)).position = some a)
    (hb : (((runState strat cfg σ0 bars).equityCurve.reverse.getD (i + 1)
      dfltPoint)).position = some b)
    (hab : a ≠ b) :
    strat.checkStopLoss (loopState strat cfg bars σ0 (i + 1)).strat
      (bars.getD (i + 1) 0) = true ∨
    strat.checkTakeProfit (loopState strat cfg bars σ0 (i + 1)).strat
      (bars.getD (i + 1) 0) = true := by
  rw [runState_curve] at ha hb
  have hlen : (loopState strat cfg bars σ0 bars.length).equityCurve.reverse.length
      = bars.length := by
    rw [List.length_reverse, loop_curve_len]
  have hb_lt : i + 1 < bars.length := by
    by_contra hge
    rw [List.getD_eq_default _ _ (by omega : (loopState strat cfg bars σ0
      bars.length).equityCurve.reverse.length ≤ i + 1)] at hb
    cases hb
  have ha_lt : i < bars.length := by omega
  rw [loop_curve_pos strat cfg bars σ0 bars.length i ha_lt] at ha
  rw [loop_curve_pos strat cfg bars σ0 bars.length (i + 1) hb_lt] at hb
  rw [loopState_succ] at hb
  exact stepBar_flip strat cfg bars (loopState strat cfg bars σ0 (i + 1))
    (i + 1) a b ha hb hab

/-- Strategy exhibiting the same-bar flip: enter long on bar 0, stop out
at price 90 and enter short on bar 1. -/
def stratFlip : Strategy Unit :=
  { shouldEnterLong := fun _ _ i => i == 0
    shouldEnterShort := fun _ _ i => i == 1
    shouldExitLong := fun _ _ _ => false
    shouldExitShort := fun _ _ _ => false
    checkStopLoss := fun _ p => p == 90
    checkTakeProfit := fun _ _ => false
    updatePosition := baseUpdatePosition
    reset := id }

/-- Frictionless configuration used for the flip scenario. -/
def cfgFlip : Config :=
  { initialCapital := 10000, commission := 0, slippage := 0,
    maxPositionSize := 1 / 2 }

/-- Counterexample to claim C3 as stated: a run whose recorded equity
snapshot sequence is LONG then SHORT — two adjacent different non-FLAT
position types with no intervening FLAT snapshot anywhere. -/
theorem claim_C3_counterexample :
    ((runState stratFlip cfgFlip sig0 [100, 90]).equityCurve.reverse.map
      (fun p => p.position)) =
      [some PosType.LONG, some PosType.SHORT] := by
  norm_num [runState, loopState, stepBar, runStopTp, runSignals, openLong,
    openShort, closePosition, calcEquity, initState, baseUpdatePosition,
    stratFlip, cfgFlip, sig0, List.range_succ]

/-- Witness for the amended claim C3 at the flip scenario: the snapshots
at indices 0 and 1 hold LONG and SHORT, and indeed the stop-loss fired on
bar 1. -/
theorem claim_C3_witness :
    ((((runState stratFlip cfgFlip sig0 [100, 90]).equityCurve.reverse.getD 0
        dfltPoint)).position = some PosType.LONG ∧
     (((runState stratFlip cfgFlip sig0 [100, 90]).equityCurve.reverse.getD 1
        dfltPoint)).position = some PosType.SHORT ∧
     PosType.LONG ≠ PosType.SHORT) ∧
    (stratFlip.checkStopLoss
        (loopState stratFlip cfgFlip [100, 90] sig0 1).strat
        ([100, 90].getD 1 0) = true ∨
     stratFlip.checkTakeProfit
        (loopState stratFlip cfgFlip [100, 90] sig0 1).strat
        ([100, 90].getD 1 0) = true) :=
  ⟨⟨by norm_num [runState, loopState, stepBar, runStopTp, runSignals, openLong,
      openShort, closePosition, calcEquity, initState, baseUpdatePosition,
      stratFlip, cfgFlip, sig0, List.range_succ],
    by norm_num [runState, loopState, stepBar, runStopTp, runSignals, openLong,
      openShort, closePosition, calcEquity, initState, baseUpdatePosition,
      stratFlip, cfgFlip, sig0, List.range_succ],
    by decide⟩,
   claim_C3_amended stratFlip cfgFlip sig0 [100, 90] 0 PosType.LONG
     PosType.SHORT
     (by norm_num [runState, loopState, stepBar, runStopTp, runSignals,
       openLong, openShort, closePosition, calcEquity, initState,
       baseUpdatePosition, stratFlip, cfgFlip, sig0, List.range_succ])
     (by norm_num [runState, loopState, stepBar, runStopTp, runSignals,
       openLong, openShort, closePosition, calcEquity, initState,
       baseUpdatePosition, stratFlip, cfgFlip, sig0, List.range_succ])
     (by decide)⟩

/-- On a skipped long open the loop body still notifies the strategy:
update_position('LONG', price, size) is called with the freshly computed
size, so a BaseStrategy-style strategy records a LONG position while the
engine stays FLAT with no trade record. -/
theorem skip_notifies {τ : Type} (strat : Strategy τ) (cfg : Config)
    (bars : List ℚ) (s : EngineState τ) (i : ℕ)
    (hflat : s.position = none)
    (hsig : strat.shouldEnterLong s.strat bars i = true)
    (hcost : longEntryCost cfg s.capital (bars.getD i 0) > s.capital)
    (hupd : strat.updatePosition = fun σ pt p sz => baseUpdatePosition σ pt p sz) :
    (stepBar strat cfg bars s i).strat =
      baseUpdatePosition s.strat (some PosType.LONG) (bars.getD i 0)
        (entrySizeAt cfg s.capital (bars.getD i 0 * (1 + cfg.slippage))) ∧
    (stepBar strat cfg bars s i).strat.position = some PosType.LONG ∧
    (stepBar strat cfg bars s i).position = none ∧
    (stepBar strat cfg bars s i).trades = s.trades := by
  have hcost2 := hcost
  simp only [longEntryCost] at hcost2
  have hopen : openLong cfg s (bars.getD i 0) i =
      { s with positionSize :=
          entrySizeAt cfg s.capital (bars.getD i 0 * (1 + cfg.slippage)) } := by
    simp only [openLong, entrySizeAt]
    rw [if_pos hcost2]
  simp only [stepBar, runStopTp, runSignals, hflat, hsig, if_true, hopen, hupd]
  refine ⟨?_, ?_, ?_, ?_⟩ <;> simp [baseUpdatePosition]

/-- If both entry signals are suppressed whenever the strategy's own
recorded position is non-FLAT, then from a state where the engine is FLAT
but the strategy believes it holds a position, no later bar can ever
change the ledger, the engine position, or the strategy state. -/
theorem noEntry_fold {τ : Type} (strat : Strategy τ) (cfg : Config)
    (bars : List ℚ)
    (hL : ∀ σ bs j, σ.position ≠ none → strat.shouldEnterLong σ bs j = false)
    (hS : ∀ σ bs j, σ.position ≠ none → strat.shouldEnterShort σ bs j = false) :
    ∀ (js : List ℕ) (s : EngineState τ), s.position = none →
      s.strat.position ≠ none →
      (js.foldl (stepBar strat cfg bars) s).trades = s.trades ∧
      (js.foldl (stepBar strat cfg bars) s).position = none ∧
      (js.foldl (stepBar strat cfg bars) s).strat = s.strat := by
  intro js
  induction js with
  | nil => exact fun s hp hsp => ⟨rfl, hp, rfl⟩
  | cons j rest ih =>
    intro s hp hsp
    have hstep : stepBar strat cfg bars s j =
        { s with equityCurve :=
            { timestamp := j, equity := calcEquity s (bars.getD j 0),
              position := s.position } :: s.equityCurve } := by
      simp only [stepBar, runStopTp, runSignals, hp, hL s.strat bars j hsp,
        hS s.strat bars j hsp, Bool.false_eq_true, if_false]
    rw [List.foldl_cons, hstep]
    exact ih _ hp hsp

/-- Amended claim C9: (1) when a long open is skipped for lack of capital
the engine still calls update_position('LONG', price, size) with the
freshly computed size, so a strategy with BaseStrategy's update_position
records a LONG position while the engine remains FLAT with no trade
record; (2) for strategies both of whose entry signals return false while
their own recorded position is non-FLAT, no further entry can ever occur
in that run (the original claim suppressed only should_enter_long, which
still lets a short entry through). -/
theorem claim_C9_amended :
    (∀ (τ : Type) (strat : Strategy τ) (cfg : Config) (bars : List ℚ)
      (s : EngineState τ) (i : ℕ),
      s.position = none →
      strat.shouldEnterLong s.strat bars i = true →
      longEntryCost cfg s.capital (bars.getD i 0) > s.capital →
      strat.updatePosition = (fun σ pt p sz => baseUpdatePosition σ pt p sz) →
      (stepBar strat cfg bars s i).strat =
        baseUpdatePosition s.strat (some PosType.LONG) (bars.getD i 0)
          (entrySizeAt cfg s.capital (bars.getD i 0 * (1 + cfg.slippage))) ∧
      (stepBar strat cfg bars s i).strat.position = some PosType.LONG ∧
      (stepBar strat cfg bars s i).position = none ∧
      (stepBar strat cfg bars s i).trades = s.trades) ∧
    (∀ (τ : Type) (strat : Strategy τ) (cfg : Config) (bars : List ℚ),
      (∀ σ bs j, σ.position ≠ none → strat.shouldEnterLong σ bs j = false) →
      (∀ σ bs j, σ.position ≠ none → strat.shouldEnterShort σ bs j = false) →
      ∀ (js : List ℕ) (s : EngineState τ), s.position = none →
        s.strat.position ≠ none →
        (js.foldl (stepBar strat cfg bars) s).trades = s.trades ∧
        (js.foldl (stepBar strat cfg bars) s).position = none ∧
        (js.foldl (stepBar strat cfg bars) s).strat = s.strat) :=
  ⟨fun _ strat cfg bars s i hflat hsig hcost hupd =>
    skip_notifies strat cfg bars s i hflat hsig hcost hupd,
   fun _ strat cfg bars hL hS js s hp hsp =>
    noEntry_fold strat cfg bars hL hS js s hp hsp⟩

/-- Strategy whose long entry is gated on its own recorded position being
FLAT (so it satisfies the claim's premise) but whose short entry is not:
it shorts on bar 1 regardless. -/
def stratC9 : Strategy Unit :=
  { shouldEnterLong := fun σ _ i => σ.position.isNone && (i == 0)
    shouldEnterShort := fun _ _ i => i == 1
    shouldExitLong := fun _ _ _ => false
    shouldExitShort := fun _ _ _ => false
    checkStopLoss := fun _ _ => false
    checkTakeProfit := fun _ _ => false
    updatePosition := baseUpdatePosition
    reset := id }

/-- Counterexample to the last clause of claim C9 as stated: stratC9's
should_enter_long returns false whenever its own recorded position is
non-FLAT; on bar 0 the long open is skipped for lack of capital (no trade,
engine FLAT, strategy records LONG), and yet a further entry does occur —
the bar-1 short — so the run ends with one trade. -/
theorem claim_C9_counterexample :
    (∀ (σ : StratState Unit) (bs : List ℚ) (j : ℕ), σ.position ≠ none →
      stratC9.shouldEnterLong σ bs j = false) ∧
    (loopState stratC9 cfgTight [100, 100] sig0 1).trades = [] ∧
    (loopState stratC9 cfgTight [100, 100] sig0 1).position = none ∧
    (loopState stratC9 cfgTight [100, 100] sig0 1).strat.position =
      some PosType.LONG ∧
    (runState stratC9 cfgTight sig0 [100, 100]).trades.length = 1 := by
  refine ⟨?_, ?_, ?_, ?_, ?_⟩
  · intro σ bs j h
    rcases hσ : σ.position with _ | p
    · exact absurd hσ h
    · simp [stratC9, hσ]
  all_goals
    norm_num [runState, loopState, stepBar, runStopTp, runSignals, openLong,
      openShort, closePosition, calcEquity, initState, baseUpdatePosition,
      stratC9, cfgTight, sig0, List.range_succ]

/-- Strategy for the witness of the amended claim C9: both entry signals
are gated on the strategy's own recorded position being FLAT (the short
side trivially, being always false). -/
def stratC9w : Strategy Unit :=
  { shouldEnterLong := fun σ _ i => σ.position.isNone && (i == 0)
    shouldEnterShort := fun _ _ _ => false
    shouldExitLong := fun _ _ _ => false
    shouldExitShort := fun _ _ _ => false
    checkStopLoss := fun _ _ => false
    checkTakeProfit := fun _ _ => false
    updatePosition := baseUpdatePosition
    reset := id }

/-- Witness for the amended claim C9 at concrete inputs: part (1) at the
skipped bar-0 long open of stratC9w under the tight configuration, and
part (2) from the resulting stuck state onward. -/
theorem claim_C9_witness :
    ((initState stratC9w cfgTight sig0).position = none ∧
     stratC9w.shouldEnterLong (initState stratC9w cfgTight sig0).strat
       [100, 100] 0 = true ∧
     longEntryCost cfgTight (initState stratC9w cfgTight sig0).capital
       ([100, 100].getD 0 0) > (initState stratC9w cfgTight sig0).capital ∧
     (stepBar stratC9w cfgTight [100, 100]
        (initState stratC9w cfgTight sig0) 0).strat.position =
       some PosType.LONG ∧
     (stepBar stratC9w cfgTight [100, 100]
        (initState stratC9w cfgTight sig0) 0).position = none ∧
     (stepBar stratC9w cfgTight [100, 100]
        (initState stratC9w cfgTight sig0) 0).trades =
       (initState stratC9w cfgTight sig0).trades) ∧
    ((loopState stratC9w cfgTight [100, 100] sig0 1).position = none ∧
     (loopState stratC9w cfgTight [100, 100] sig0 1).strat.position ≠ none ∧
     ([1].foldl (stepBar stratC9w cfgTight [100, 100])
        (loopState stratC9w cfgTight [100, 100] sig0 1)).trades =
       (loopState stratC9w cfgTight [100, 100] sig0 1).trades ∧
     ([1].foldl (stepBar stratC9w cfgTight [100, 100])
        (loopState stratC9w cfgTight [100, 100] sig0 1)).position = none) := by
  have hL : ∀ (σ : StratState Unit) bs j, σ.position ≠ none →
      stratC9w.shouldEnterLong σ bs j = false := by
    intro σ bs j h
    rcases hσ : σ.position with _ | p
    · exact absurd hσ h
    · simp [stratC9w, hσ]
  have hS : ∀ (σ : StratState Unit) bs j, σ.position ≠ none →
      stratC9w.shouldEnterShort σ bs j = false := fun _ _ _ _ => rfl
  have hpos : (loopState stratC9w cfgTight [100, 100] sig0 1).position =
      none := by
    norm_num [loopState, stepBar, runStopTp, runSignals, openLong, openShort,
      closePosition, calcEquity, initState, baseUpdatePosition, stratC9w,
      cfgTight, sig0, List.range_succ]
  have hspL : (loopState stratC9w cfgTight [100, 100] sig0 1).strat.position =
      some PosType.LONG := by
    norm_num [loopState, stepBar, runStopTp, runSignals, openLong, openShort,
      closePosition, calcEquity, initState, baseUpdatePosition, stratC9w,
      cfgTight, sig0, List.range_succ]
  have hsp : (loopState stratC9w cfgTight [100, 100] sig0 1).strat.position ≠
      none := by
    rw [hspL]
    exact Option.some_ne_none _
  have h1 := claim_C9_amended.1 Unit stratC9w cfgTight [100, 100]
    (initState stratC9w cfgTight sig0) 0 rfl rfl
    (by norm_num [longEntryCost, cfgTight, initState]) rfl
  have h2 := claim_C9_amended.2 Unit stratC9w cfgTight [100, 100] hL hS [1]
    (loopState stratC9w cfgTight [100, 100] sig0 1) hpos hsp
  exact ⟨⟨rfl, rfl, by norm_num [longEntryCost, cfgTight, initState],
    h1.2.1, h1.2.2.1, h1.2.2.2⟩, ⟨hpos, hsp, h2.1, h2.2.1⟩⟩

/-- Trades of a ledger with zero closed trades all have recorded pnl 0
(an open trade dict has no pnl key, read back as 0). -/
theorem open_pnl_zero (ts : List Trade) (h : totalTradesOf ts = 0) :
    ∀ t ∈ ts, tradePnl t = 0 := by
  intro t ht
  have hnil : ts.filter (fun t => t.exit.isSome) = [] :=
    List.length_eq_zero.mp h
  have hf := List.filter_eq_nil.mp hnil t ht
  have hnone : t.exit = none := by
    cases he : t.exit
    · rfl
    · rw [he] at hf
      exact absurd rfl hf
  rw [tradePnl, hnone]

/-- With zero closed trades the derived statistics all default to 0. -/
theorem degenerate_stats (ts : List Trade) (h : totalTradesOf ts = 0) :
    winRateOf ts = 0 ∧ avgWinOf ts = 0 ∧ avgLossOf ts = 0 ∧
    profitFactorOf ts = 0 := by
  have hz := open_pnl_zero ts h
  have hwin : winningTradesOf ts = 0 := by
    unfold winningTradesOf
    rw [List.length_eq_zero]
    apply List.filter_eq_nil.mpr
    intro t ht
    rw [hz t ht]
    simp
  have hlose : losingTradesOf ts = 0 := by
    unfold losingTradesOf
    rw [List.length_eq_zero]
    apply List.filter_eq_nil.mpr
    intro t ht
    rw [hz t ht]
    simp
  have havgl : avgLossOf ts = 0 := by
    unfold avgLossOf
    rw [hlose]
    simp
  refine ⟨?_, ?_, havgl, ?_⟩
  · unfold winRateOf
    rw [h]
    simp
  · unfold avgWinOf
    rw [hwin]
    simp
  · unfold profitFactorOf
    rw [havgl]
    simp

/-- Elements of a zipWith come from the two input lists. -/
theorem exists_of_mem_zipWith {α β γ : Type} (f : α → β → γ) :
    ∀ (as : List α) (bs : List β) (x : γ), x ∈ List.zipWith f as bs →
      ∃ a ∈ as, ∃ b ∈ bs, x = f a b := by
  intro as
  induction as with
  | nil => intro bs x hx; cases hx
  | cons a as ih =>
    intro bs x hx
    cases bs with
    | nil => cases hx
    | cons b bs =>
      rcases List.mem_cons.mp hx with h | h
      · exact ⟨a, List.mem_cons_self a as, b, List.mem_cons_self b bs, h⟩
      · obtain ⟨a2, ha2, b2, hb2, hx2⟩ := ih bs x h
        exact ⟨a2, List.mem_cons_of_mem a ha2, b2,
          List.mem_cons_of_mem b hb2, hx2⟩

/-- Over a constant equity series every defined per-bar return is 0. -/
theorem pct_const (es : List ℚ) (c : ℚ) (h : ∀ e ∈ es, e = c) :
    ∀ r ∈ validOf (pctChange es), r = 0 := by
  intro r hr
  unfold validOf pctChange at hr
  obtain ⟨o, ho, hor⟩ := List.mem_filterMap.mp hr
  rcases List.mem_cons.mp ho with h0 | hzip
  · rw [h0] at hor
    cases hor
  · obtain ⟨prev, hprev, cur, hcur, ho2⟩ :=
      exists_of_mem_zipWith _ es es.tail o hzip
    rw [h prev hprev, h cur (List.mem_of_mem_tail hcur)] at ho2
    rw [ho2] at hor
    by_cases hc : c = 0
    · rw [if_pos hc] at hor
      cases hor
    · rw [if_neg hc] at hor
      have : (c - c) / c = r := Option.some_injective _ hor
      rw [← this]
      simp

/-- The guard of the Sharpe ratio: a zero (or undefined) returns variance
yields 0. -/
theorem sharpe_zero_of_var (es : List ℚ)
    (h : retVarOf es = some 0 ∨ retVarOf es = none) : sharpeOf es = 0 := by
  rcases h with h | h <;>
    rcases hm : retMeanOf es with _ | m <;>
      simp [sharpeOf, h, hm]

/-- A constant equity series has returns variance 0 (or undefined, for
fewer than two defined returns), hence Sharpe 0. -/
theorem sharpe_zero_of_const (es : List ℚ) (c : ℚ)
    (h : ∀ e ∈ es, e = c) : sharpeOf es = 0 := by
  apply sharpe_zero_of_var
  have hall := pct_const es c h
  unfold retVarOf
  by_cases hlen : (validOf (pctChange es)).length < 2
  · right
    simp only [if_pos hlen]
  · left
    simp only [if_neg hlen]
    congr 1
    have hsum : (validOf (pctChange es)).sum = 0 :=
      List.sum_eq_zero hall
    have hm : (validOf (pctChange es)).sum /
        ((validOf (pctChange es)).length : ℚ) = 0 := by
      rw [hsum]
      simp
    rw [hm]
    have : ((validOf (pctChange es)).map (fun x => (x - 0) ^ 2)).sum = 0 := by
      apply List.sum_eq_zero
      intro y hy
      obtain ⟨x, hx, hxy⟩ := List.mem_map.mp hy
      rw [hall x hx] at hxy
      rw [← hxy]
      norm_num
    rw [this]
    simp

/-- Claim C6: the performance computation's degenerate-input guards.  With
zero closed trades win_rate, avg_win, avg_loss and profit_factor are all
0; for any run profit_factor is 0 whenever avg_loss is 0; sharpe is 0
whenever the returns variance (the square of the pandas std) is 0; and a
run whose equity snapshots are all identical has sharpe 0.  The embedding
is total, so none of these can raise. -/
theorem claim_C6 :
    (∀ (τ : Type) (strat : Strategy τ) (cfg : Config) (σ0 : StratState τ)
      (bars : List ℚ),
      totalTradesOf (runState strat cfg σ0 bars).trades = 0 →
        winRateOf (runState strat cfg σ0 bars).trades = 0 ∧
        avgWinOf (runState strat cfg σ0 bars).trades = 0 ∧
        avgLossOf (runState strat cfg σ0 bars).trades = 0 ∧
        profitFactorOf (runState strat cfg σ0 bars).trades = 0) ∧
    (∀ (τ : Type) (strat : Strategy τ) (cfg : Config) (σ0 : StratState τ)
      (bars : List ℚ),
      avgLossOf (runState strat cfg σ0 bars).trades = 0 →
        profitFactorOf (runState strat cfg σ0 bars).trades = 0) ∧
    (∀ (τ : Type) (strat : Strategy τ) (cfg : Config) (σ0 : StratState τ)
      (bars : List ℚ),
      retVarOf (equitiesOf (runState strat cfg σ0 bars)) = some 0 →
        sharpeOf (equitiesOf (runState strat cfg σ0 bars)) = 0) ∧
    (∀ (τ : Type) (strat : Strategy τ) (cfg : Config) (σ0 : StratState τ)
      (bars : List ℚ) (c : ℚ),
      (∀ e ∈ equitiesOf (runState strat cfg σ0 bars), e = c) →
        sharpeOf (equitiesOf (runState strat cfg σ0 bars)) = 0) :=
  ⟨fun _ strat cfg σ0 bars h => degenerate_stats _ h,
   fun _ strat cfg σ0 bars h => by
    unfold profitFactorOf
    rw [h]
    simp,
   fun _ strat cfg σ0 bars h =>
    sharpe_zero_of_var _ (Or.inl h),
   fun _ strat cfg σ0 bars c h =>
    sharpe_zero_of_const _ c h⟩

/-- Witness for claim C6 at a concrete input: a three-bar all-false run
has zero closed trades, all ratio statistics 0, a constant equity curve of
10000, returns variance 0, and sharpe 0. -/
theorem claim_C6_witness :
    (totalTradesOf (runState stratFlat cfgWorked sig0 [5, 5, 5]).trades = 0 ∧
     winRateOf (runState stratFlat cfgWorked sig0 [5, 5, 5]).trades = 0 ∧
     avgWinOf (runState stratFlat cfgWorked sig0 [5, 5, 5]).trades = 0 ∧
     avgLossOf (runState stratFlat cfgWorked sig0 [5, 5, 5]).trades = 0 ∧
     profitFactorOf (runState stratFlat cfgWorked sig0 [5, 5, 5]).trades = 0) ∧
    (retVarOf (equitiesOf (runState stratFlat cfgWorked sig0 [5, 5, 5])) =
       some 0 ∧
     sharpeOf (equitiesOf (runState stratFlat cfgWorked sig0 [5, 5, 5])) = 0) ∧
    ((∀ e ∈ equitiesOf (runState stratFlat cfgWorked sig0 [5, 5, 5]),
        e = 10000) ∧
     sharpeOf (equitiesOf (runState stratFlat cfgWorked sig0 [5, 5, 5]))
       = 0) := by
  have htrades : (runState stratFlat cfgWorked sig0 [5, 5, 5]).trades = [] := by
    norm_num [runState, loopState, stepBar, runStopTp, runSignals, openLong,
      openShort, closePosition, calcEquity, initState, baseUpdatePosition,
      stratFlat, cfgWorked, sig0, List.range_succ]
  have htt : totalTradesOf (runState stratFlat cfgWorked sig0 [5, 5, 5]).trades
      = 0 := by
    rw [htrades]
    rfl
  have heq : equitiesOf (runState stratFlat cfgWorked sig0 [5, 5, 5]) =
      [10000, 10000, 10000] := by
    norm_num [equitiesOf, runState, loopState, stepBar, runStopTp, runSignals,
      openLong, openShort, closePosition, calcEquity, initState,
      baseUpdatePosition, stratFlat, cfgWorked, sig0, List.range_succ]
  have hvar : retVarOf (equitiesOf (runState stratFlat cfgWorked sig0
      [5, 5, 5])) = some 0 := by
    rw [heq]
    norm_num [retVarOf, validOf, pctChange, List.filterMap_cons,
      List.filterMap_nil, id]
  have hconst : ∀ e ∈ equitiesOf (runState stratFlat cfgWorked sig0 [5, 5, 5]),
      e = 10000 := by
    intro e he
    rw [heq] at he
    rcases List.mem_cons.mp he with h | he2
    · exact h
    rcases List.mem_cons.mp he2 with h | he3
    · exact h
    rcases List.mem_cons.mp he3 with h | he4
    · exact h
    · exact absurd he4 (List.not_mem_nil e)
  obtain ⟨c1, c2, c3, c4⟩ := claim_C6
  have h1 := c1 Unit stratFlat cfgWorked sig0 [5, 5, 5] htt
  have h3 := c3 Unit stratFlat cfgWorked sig0 [5, 5, 5] hvar
  have h4 := c4 Unit stratFlat cfgWorked sig0 [5, 5, 5] 10000 hconst
  exact ⟨⟨htt, h1.1, h1.2.1, h1.2.2.1, h1.2.2.2⟩, ⟨hvar, h3⟩, ⟨hconst, h4⟩⟩

/-- Mirror of the spec's cost model for a close (spec 4.3): LONG close is
the sell side (effective price with slippage subtracted, proceeds minus
commission credited), SHORT close the buy side; pnl is signed by side over
effective prices and pnl_pct normalizes by entry notional; the open Trade
Record is finalized with exit time, price, reason, pnl and commission and
the Position becomes FLAT.  With no position or no trade record to
finalize, nothing happens. -/
def specClosePosition {τ : Type} (cfg : Config) (t : EngineState τ)
    (price : ℚ) (time : ℕ) (reason : ExitReason) : EngineState τ :=
  match t.position, t.trades with
  | some pt, tr :: rest =>
    let effectivePrice :=
      match pt with
      | PosType.LONG => price * (1 - cfg.slippage)
      | PosType.SHORT => price * (1 + cfg.slippage)
    let legValue := t.positionSize * effectivePrice
    let commission := legValue * cfg.commission
    let newCapital :=
      match pt with
      | PosType.LONG => t.capital + (legValue - commission)
      | PosType.SHORT => t.capital - (legValue + commission)
    let pnl :=
      match pt with
      | PosType.LONG => (effectivePrice - t.entryPrice) * t.positionSize
      | PosType.SHORT => (t.entryPrice - effectivePrice) * t.positionSize
    let pnlPct := pnl / (t.entryPrice * t.positionSize) * 100
    let ex : TradeExit :=
      { exitTime := time, exitPrice := effectivePrice, exitReason := reason,
        pnl := pnl, pnlPct := pnlPct, exitCommission := commission }
    { t with
      capital := newCapital
      position := none
      positionSize := 0
      entryPrice := 0
      trades := { tr with exit := some ex } :: rest }
  | _, _ => t

/-- Mirror of the spec's long open (spec 4.3 cost model, buy side):
effective_price = price (1 + slippage), size = capital x
max_position_size_fraction / effective_price, cost = size x
effective_price, commission = cost x commission_rate; if the total entry
cost exceeds the available capital the open is skipped (not fatal): no
Trade Record is created and capital and Position are untouched; otherwise
capital decreases by cost plus commission, the Position becomes LONG and a
Trade Record is created.  The spec does not say what happens to the
engine's scratch position_size field on a skip; the mirror keeps the
code's convention of retaining the computed size there (the skip's
observable consequences are the subject of claims C5 and C9). -/
def specOpenLong {τ : Type} (cfg : Config) (t : EngineState τ) (price : ℚ)
    (time : ℕ) : EngineState τ :=
  let effectivePrice := price * (1 + cfg.slippage)
  let size := t.capital * cfg.maxPositionSize / effectivePrice
  let cost := size * effectivePrice
  let commission := cost * cfg.commission
  if cost + commission > t.capital then { t with positionSize := size }
  else
    { t with
      capital := t.capital - (cost + commission)
      position := some PosType.LONG
      positionSize := size
      entryPrice := effectivePrice
      trades := { entryTime := time, entryPrice := effectivePrice,
                  positionType := PosType.LONG, size := size,
                  commission := commission, exit := none } :: t.trades }

/-- Mirror of the spec's short open (spec 4.3 cost model, sell side):
effective_price = price (1 - slippage), the same sizing rule, proceeds =
size x effective_price, commission on proceeds, capital increases by
proceeds minus commission, the Position becomes SHORT and a Trade Record
is created. -/
def specOpenShort {τ : Type} (cfg : Config) (t : EngineState τ) (price : ℚ)
    (time : ℕ) : EngineState τ :=
  let effectivePrice := price * (1 - cfg.slippage)
  let size := t.capital * cfg.maxPositionSize / effectivePrice
  let proceeds := size * effectivePrice
  let commission := proceeds * cfg.commission
  { t with
    capital := t.capital + (proceeds - commission)
    position := some PosType.SHORT
    positionSize := size
    entryPrice := effectivePrice
    trades := { entryTime := time, entryPrice := effectivePrice,
                positionType := PosType.SHORT, size := size,
                commission := commission, exit := none } :: t.trades }

/-- Mirror of the spec's equity definition: capital plus the unrealized
pnl of the live position (0 when FLAT). -/
def specEquity {τ : Type} (t : EngineState τ) (price : ℚ) : ℚ :=
  match t.position with
  | some PosType.LONG => t.capital + (price - t.entryPrice) * t.positionSize
  | some PosType.SHORT => t.capital + (t.entryPrice - price) * t.positionSize
  | none => t.capital

/-- Step 1 of the spec's per-bar algorithm: if the Position is non-FLAT,
evaluate check_stop_loss; if true close at the current price with reason
STOP_LOSS and clear the position via on_position_changed(FLAT, ...); else
evaluate check_take_profit; if true close with reason TAKE_PROFIT. -/
def specRunStopTp {τ : Type} (strat : Strategy τ) (cfg : Config)
    (t : EngineState τ) (price : ℚ) (i : ℕ) : EngineState τ :=
  match t.position with
  | some _ =>
    if strat.checkStopLoss t.strat price then
      let c := specClosePosition cfg t price i ExitReason.STOP_LOSS
      { c with strat := strat.updatePosition c.strat none 0 0 }
    else if strat.checkTakeProfit t.strat price then
      let c := specClosePosition cfg t price i ExitReason.TAKE_PROFIT
      { c with strat := strat.updatePosition c.strat none 0 0 }
    else t
  | none => t

/-- Steps 2 and 3 of the spec's per-bar algorithm: if the Position is now
FLAT evaluate should_enter_long and open LONG on true, else evaluate
should_enter_short and open SHORT on true; else (position held) evaluate
the should_exit method matching the held side and close with reason SIGNAL
on true. -/
def specRunSignals {τ : Type} (strat : Strategy τ) (cfg : Config)
    (bars : List ℚ) (t1 : EngineState τ) (price : ℚ) (i : ℕ) :
    EngineState τ :=
  match t1.position with
  | none =>
    if strat.shouldEnterLong t1.strat bars i then
      let o := specOpenLong cfg t1 price i
      { o with strat := strat.updatePosition o.strat (some PosType.LONG)
                          price o.positionSize }
    else if strat.shouldEnterShort t1.strat bars i then
      let o := specOpenShort cfg t1 price i
      { o with strat := strat.updatePosition o.strat (some PosType.SHORT)
                          price o.positionSize }
    else t1
  | some PosType.LONG =>
    if strat.shouldExitLong t1.strat bars i then
      let c := specClosePosition cfg t1 price i ExitReason.SIGNAL
      { c with strat := strat.updatePosition c.strat none 0 0 }
    else t1
  | some PosType.SHORT =>
    if strat.shouldExitShort t1.strat bars i then
      let c := specClosePosition cfg t1 price i ExitReason.SIGNAL
      { c with strat := strat.updatePosition c.strat none 0 0 }
    else t1

/-- The spec's per-bar algorithm in its fixed order: step 1 (stop-loss
then take-profit), steps 2 and 3 (entry when now FLAT, else matching
exit), then step 4: record exactly one Equity Snapshot using the bar's
close. -/
def specStepBar {τ : Type} (strat : Strategy τ) (cfg : Config)
    (bars : List ℚ) (t : EngineState τ) (i : ℕ) : EngineState τ :=
  let price := bars.getD i 0
  let t2 := specRunSignals strat cfg bars (specRunStopTp strat cfg t price i)
    price i
  { t2 with equityCurve :=
      { timestamp := i, equity := specEquity t2 price,
        position := t2.position } :: t2.equityCurve }

/-- The spec's whole run: reset, replay every bar in order, and after the
loop force-close any still-open position at the last bar's close price
with reason FINAL. -/
def specRunState {τ : Type} (strat : Strategy τ) (cfg : Config)
    (σ0 : StratState τ) (bars : List ℚ) : EngineState τ :=
  let t := (List.range bars.length).foldl (specStepBar strat cfg bars)
    (initState strat cfg σ0)
  match t.position with
  | some _ => specClosePosition cfg t (bars.getLastD 0) (bars.length - 1)
                ExitReason.FINAL
  | none => t

/-- Chronological snapshot i of the loop is a snapshot of bar i: its
timestamp is i and its position is the one held after bar i was
processed. -/
theorem loop_curve_get {τ : Type} (strat : Strategy τ) (cfg : Config)
    (bars : List ℚ) (σ0 : StratState τ) :
    ∀ n i, i < n → ∃ q : ℚ,
      (loopState strat cfg bars σ0 n).equityCurve.reverse.getD i dfltPoint =
        { timestamp := i, equity := q,
          position := (loopState strat cfg bars σ0 (i + 1)).position } := by
  intro n
  induction n with
  | zero => intro i h; omega
  | succ k ih =>
    intro i hi
    rw [loopState_succ]
    obtain ⟨q, hq⟩ := stepBar_curve strat cfg bars (loopState strat cfg bars σ0 k) k
    rw [hq, List.reverse_cons]
    rcases Nat.lt_or_ge i k with h | h
    · rw [List.getD_append _ _ _ _ (by
        rw [List.length_reverse, loop_curve_len]; exact h)]
      exact ih i h
    · have hik : i = k := by omega
      subst hik
      rw [List.getD_append_right _ _ _ _ (by
        rw [List.length_reverse, loop_curve_len])]
      rw [List.length_reverse, loop_curve_len]
      simp only [Nat.sub_self, List.getD_cons_zero]
      rw [← loopState_succ]
      exact ⟨q, rfl⟩

/-- Slippage adjustment applied to the price of the closing leg of a
position of the given side. -/
def closeSide (cfg : Config) (pt : PosType) : ℚ :=
  match pt with
  | PosType.LONG => 1 - cfg.slippage
  | PosType.SHORT => 1 + cfg.slippage

/-- When the loop ends with an open position, the run's newest trade is
that position's trade record finalized with exit reason FINAL at the last
bar's index and the last close adjusted by slippage for the closing
side. -/
theorem run_final_close {τ : Type} (strat : Strategy τ) (cfg : Config)
    (σ0 : StratState τ) (bars : List ℚ) (pt : PosType)
    (hp : (loopState strat cfg bars σ0 bars.length).position = some pt) :
    ∃ (tr : Trade) (rest : List Trade) (ex : TradeExit),
      (runState strat cfg σ0 bars).trades = { tr with exit := some ex } :: rest ∧
      ex.exitReason = ExitReason.FINAL ∧
      ex.exitTime = bars.length - 1 ∧
      ex.exitPrice = bars.getLastD 0 * closeSide cfg pt := by
  have hinv := inv_loop strat cfg bars σ0 bars.length
  rcases hinv.2 with ⟨hpn, _⟩ | ⟨pt2, tr, rest, hp2, htr, _⟩
  · rw [hp] at hpn
    cases hpn
  · have hpt : pt2 = pt := by
      rw [hp] at hp2
      exact Option.some_injective _ hp2.symm
    subst hpt
    cases pt2 with
    | LONG =>
      let exv : TradeExit :=
        { exitTime := bars.length - 1,
          exitPrice := bars.getLastD 0 * (1 - cfg.slippage),
          exitReason := ExitReason.FINAL,
          pnl := (bars.getLastD 0 * (1 - cfg.slippage) -
              (loopState strat cfg bars σ0 bars.length).entryPrice) *
            (loopState strat cfg bars σ0 bars.length).positionSize,
          pnlPct := (bars.getLastD 0 * (1 - cfg.slippage) -
                (loopState strat cfg bars σ0 bars.length).entryPrice) *
              (loopState strat cfg bars σ0 bars.length).positionSize /
              ((loopState strat cfg bars σ0 bars.length).entryPrice *
                (loopState strat cfg bars σ0 bars.length).positionSize) *
              100,
          exitCommission :=
            (loopState strat cfg bars σ0 bars.length).positionSize *
              (bars.getLastD 0 * (1 - cfg.slippage)) *
              cfg.commission }
      have ht : (runState strat cfg σ0 bars).trades =
          { tr with exit := some exv } :: rest := by
        unfold runState
        simp only [hp]
        simp only [closePosition, hp, htr]
      exact ⟨tr, rest, exv, ht, rfl, rfl, rfl⟩
    | SHORT =>
      let exv : TradeExit :=
        { exitTime := bars.length - 1,
          exitPrice := bars.getLastD 0 * (1 + cfg.slippage),
          exitReason := ExitReason.FINAL,
          pnl := ((loopState strat cfg bars σ0 bars.length).entryPrice -
              bars.getLastD 0 * (1 + cfg.slippage)) *
            (loopState strat cfg bars σ0 bars.length).positionSize,
          pnlPct := ((loopState strat cfg bars σ0 bars.length).entryPrice -
                bars.getLastD 0 * (1 + cfg.slippage)) *
              (loopState strat cfg bars σ0 bars.length).positionSize /
              ((loopState strat cfg bars σ0 bars.length).entryPrice *
                (loopState strat cfg bars σ0 bars.length).positionSize) *
              100,
          exitCommission :=
            (loopState strat cfg bars σ0 bars.length).positionSize *
              (bars.getLastD 0 * (1 + cfg.slippage)) *
              cfg.commission }
      have ht : (runState strat cfg σ0 bars).trades =
          { tr with exit := some exv } :: rest := by
        unfold runState
        simp only [hp]
        simp only [closePosition, hp, htr]
      exact ⟨tr, rest, exv, ht, rfl, rfl, rfl⟩

/-- Claim C1: the engine's run coincides with the spec's per-bar
algorithm rendered verbatim (stop-loss before take-profit when non-FLAT,
entry checks when now FLAT else the matching exit check, one snapshot per
bar, forced FINAL liquidation after the loop); moreover the equity curve
has exactly one snapshot per input bar, chronological snapshot i carries
timestamp i and the position held after bar i, and a run ending with an
open position finalizes its trade with reason FINAL at the last bar's
close. -/
theorem claim_C1 {τ : Type} (strat : Strategy τ) (cfg : Config)
    (σ0 : StratState τ) (bars : List ℚ) :
    runState strat cfg σ0 bars = specRunState strat cfg σ0 bars ∧
    (runState strat cfg σ0 bars).equityCurve.length = bars.length ∧
    (∀ i, i < bars.length → ∃ q : ℚ,
      (runState strat cfg σ0 bars).equityCurve.reverse.getD i dfltPoint =
        { timestamp := i, equity := q,
          position := (loopState strat cfg bars σ0 (i + 1)).position }) ∧
    (∀ pt, (loopState strat cfg bars σ0 bars.length).position = some pt →
      ∃ (tr : Trade) (rest : List Trade) (ex : TradeExit),
        (runState strat cfg σ0 bars).trades =
          { tr with exit := some ex } :: rest ∧
        ex.exitReason = ExitReason.FINAL ∧
        ex.exitTime = bars.length - 1 ∧
        ex.exitPrice = bars.getLastD 0 * closeSide cfg pt) := by
  refine ⟨rfl, ?_, ?_, ?_⟩
  · rw [runState_curve, loop_curve_len]
  · intro i hi
    rw [runState_curve]
    exact loop_curve_get strat cfg bars σ0 bars.length i hi
  · intro pt hp
    exact run_final_close strat cfg σ0 bars pt hp

/-- Strategy that opens long on the first bar and never exits, so the run
must force-close it. -/
def stratHold : Strategy Unit :=
  { shouldEnterLong := fun _ _ i => i == 0
    shouldEnterShort := fun _ _ _ => false
    shouldExitLong := fun _ _ _ => false
    shouldExitShort := fun _ _ _ => false
    checkStopLoss := fun _ _ => false
    checkTakeProfit := fun _ _ => false
    updatePosition := baseUpdatePosition
    reset := id }

/-- Witness for claim C1 at a concrete input: a hold-forever long over two
bars, whose run matches the spec mirror, records two snapshots, and is
force-closed with reason FINAL. -/
theorem claim_C1_witness :
    (runState stratHold cfgWorked sig0 [100, 110] =
      specRunState stratHold cfgWorked sig0 [100, 110]) ∧
    ((runState stratHold cfgWorked sig0 [100, 110]).equityCurve.length = 2) ∧
    ((0 : ℕ) < 2 ∧ ∃ q : ℚ,
      (runState stratHold cfgWorked sig0 [100, 110]).equityCurve.reverse.getD
          0 dfltPoint =
        { timestamp := 0, equity := q,
          position := (loopState stratHold cfgWorked [100, 110] sig0 1).position }) ∧
    ((loopState stratHold cfgWorked [100, 110] sig0 2).position =
        some PosType.LONG ∧
     ∃ (tr : Trade) (rest : List Trade) (ex : TradeExit),
      (runState stratHold cfgWorked sig0 [100, 110]).trades =
        { tr with exit := some ex } :: rest ∧
      ex.exitReason = ExitReason.FINAL ∧
      ex.exitTime = 2 - 1 ∧
      ex.exitPrice = [(100 : ℚ), 110].getLastD 0 *
        closeSide cfgWorked PosType.LONG) := by
  obtain ⟨h1, h2, h3, h4⟩ := claim_C1 stratHold cfgWorked sig0 [100, 110]
  have hp : (loopState stratHold cfgWorked [100, 110] sig0 2).position =
      some PosType.LONG := by
    norm_num [loopState, stepBar, runStopTp, runSignals, openLong, openShort,
      closePosition, calcEquity, initState, baseUpdatePosition, stratHold,
      cfgWorked, sig0, List.range_succ]
  exact ⟨h1, h2, ⟨by norm_num, h3 0 (by norm_num)⟩, ⟨hp, h4 PosType.LONG hp⟩⟩

namespace Indicators

/-- A pandas float series: a sequence of values each of which may be NaN
(none).  The indicator library consumes NaN-free numeric input and
produces sequences whose warm-up positions are NaN. -/
abbrev OSeq := List (Option ℚ)

/-- Embeds a NaN-free numeric sequence. -/
def liftSeq (xs : List ℚ) : OSeq := xs.map some

/-- Pointwise binary arithmetic on aligned series with NaN propagation. -/
def oseqZip (f : ℚ → ℚ → ℚ) (xs ys : OSeq) : OSeq :=
  List.zipWith (fun a b =>
    match a, b with
    | some x, some y => some (f x y)
    | _, _ => none) xs ys

/-- Pointwise unary arithmetic with NaN propagation. -/
def oseqMap (f : ℚ → ℚ) (xs : OSeq) : OSeq := xs.map (Option.map f)

/-- Pointwise division: undefined on NaN operands and on a zero divisor
(there pandas floats produce inf or NaN; neither is a rational, and the
claims only concern lengths and definedness, so both are modelled as
undefined). -/
def oseqDiv (xs ys : OSeq) : OSeq :=
  List.zipWith (fun a b =>
    match a, b with
    | some x, some y => if y = 0 then none else some (x / y)
    | _, _ => none) xs ys

/-- Series.shift(): the previous element, undefined at position 0. -/
def shift1 (xs : OSeq) : OSeq :=
  match xs with
  | [] => []
  | _ => none :: xs.dropLast

/-- Series.diff(): elementwise difference with the previous element. -/
def diffSeq (xs : OSeq) : OSeq := oseqZip (fun a b => a - b) xs (shift1 xs)

/-- The values of a window, available only when none of them is NaN. -/
def allVals : OSeq → Option (List ℚ)
  | [] => some []
  | none :: _ => none
  | some x :: rest => (allVals rest).map (fun l => x :: l)

/-- Mean of a list of rationals. -/
def listMean (v : List ℚ) : ℚ := v.sum / (v.length : ℚ)

/-- Minimum of a nonempty list (0 on empty, unused). -/
def listMin : List ℚ → ℚ
  | [] => 0
  | x :: rest => rest.foldl min x

/-- Maximum of a nonempty list (0 on empty, unused). -/
def listMax : List ℚ → ℚ
  | [] => 0
  | x :: rest => rest.foldl max x

/-- Series.rolling(window = p).f(): position i is defined when the window
of p positions ending at i exists (p at least 1 and at most i + 1) and
contains no NaN, and then holds f of the window values. -/
def rollingApply (f : List ℚ → ℚ) (p : ℕ) (xs : OSeq) : OSeq :=
  (List.range xs.length).map (fun i =>
    if p ≤ i + 1 ∧ 1 ≤ p then
      match allVals ((xs.drop (i + 1 - p)).take p) with
      | some vals => some (f vals)
      | none => none
    else none)

/-- Rolling mean. -/
def rollingMean (p : ℕ) (xs : OSeq) : OSeq := rollingApply listMean p xs

/-- Rolling minimum. -/
def rollingMin (p : ℕ) (xs : OSeq) : OSeq := rollingApply listMin p xs

/-- Rolling maximum. -/
def rollingMax (p : ℕ) (xs : OSeq) : OSeq := rollingApply listMax p xs

/-- Series.rolling(window = p).std() squared: the ddof-1 sample variance
of each window, NaN everywhere when the window size is below 2 (a
single-value sample std is NaN).  The source takes the square root of
this quantity, which is irrational in general; the embedded value carries
the variance instead, leaving the length and definedness structure — all
the claims concern — unchanged. -/
def rollingStdSq (p : ℕ) (xs : OSeq) : OSeq :=
  if p < 2 then (List.range xs.length).map (fun _ => none)
  else rollingApply
    (fun v => ((v.map (fun x => (x - listMean v) ^ 2)).sum) /
      ((v.length : ℚ) - 1)) p xs

/-- Series.ewm(span, adjust = False).mean() as a running recurrence: the
first defined input seeds the mean, after which y = (1 - alpha) y +
alpha x; a NaN input leaves the mean unchanged and outputs the carried
value (the library only ever applies this to NaN-free data). -/
def ewmRun (α : ℚ) : Option ℚ → OSeq → OSeq
  | _, [] => []
  | none, none :: rest => none :: ewmRun α none rest
  | none, some v :: rest => some v :: ewmRun α (some v) rest
  | some m, none :: rest => some m :: ewmRun α (some m) rest
  | some m, some v :: rest =>
    let y := (1 - α) * m + α * v
    some y :: ewmRun α (some y) rest

/-- Indicators.sma: data.rolling(window = period).mean(). -/
def sma (data : OSeq) (period : ℕ) : OSeq := rollingMean period data

/-- Indicators.ema: data.ewm(span = period, adjust = False).mean(), whose
smoothing factor is 2 / (period + 1). -/
def ema (data : OSeq) (period : ℕ) : OSeq :=
  ewmRun (2 / ((period : ℚ) + 1)) none data

/-- delta.where(delta greater than 0, 0): the positive moves, 0 elsewhere
(a NaN comparison is False, so the NaN at position 0 also becomes 0). -/
def gainsOf (delta : OSeq) : OSeq :=
  delta.map (fun d =>
    match d with
    | some v => if 0 < v then some v else some 0
    | none => some 0)

/-- Negated delta.where(delta less than 0, 0): the magnitudes of the
negative moves, 0 elsewhere. -/
def lossesOf (delta : OSeq) : OSeq :=
  delta.map (fun d =>
    match d with
    | some v => if v < 0 then some (-v) else some 0
    | none => some 0)

/-- Indicators.rsi: rs is the ratio of rolling mean gain to rolling mean
loss and rsi = 100 - 100 / (1 + rs). -/
def rsi (data : OSeq) (period : ℕ) : OSeq :=
  let delta := diffSeq data
  let gain := rollingMean period (gainsOf delta)
  let loss := rollingMean period (lossesOf delta)
  let rs := oseqDiv gain loss
  oseqMap (fun r => 100 - 100 / (1 + r)) rs

/-- Indicators.macd: fast and slow EMAs, their difference, a signal EMA of
the difference, and the histogram. -/
def macd (data : OSeq) (fast slow signal : ℕ) : OSeq × OSeq × OSeq :=
  let emaFast := ema data fast
  let emaSlow := ema data slow
  let macdLine := oseqZip (fun a b => a - b) emaFast emaSlow
  let signalLine := ema macdLine signal
  let histogram := oseqZip (fun a b => a - b) macdLine signalLine
  (macdLine, signalLine, histogram)

/-- Indicators.bollinger_bands: middle SMA band plus and minus the rolling
std times the multiplier (the std channel carries the variance, see
rollingStdSq). -/
def bollingerBands (data : OSeq) (period : ℕ) (stdDev : ℚ) :
    OSeq × OSeq × OSeq :=
  let middle := sma data period
  let sd := rollingStdSq period data
  (oseqZip (fun m s => m + s * stdDev) middle sd, middle,
   oseqZip (fun m s => m - s * stdDev) middle sd)

/-- NaN-skipping maximum of two values, from the rowwise
DataFrame.max(axis = 1) of the true-range computation. -/
def omax : Option ℚ → Option ℚ → Option ℚ
  | some a, some b => some (max a b)
  | some a, none => some a
  | none, some b => some b
  | none, none => none

/-- Indicators.atr: rolling mean of the true range, the NaN-skipping
rowwise maximum of high - low, the absolute high and low moves against
the previous close. -/
def atr (high low close : OSeq) (period : ℕ) : OSeq :=
  let highLow := oseqZip (fun a b => a - b) high low
  let highClose := oseqZip (fun a b => |a - b|) high (shift1 close)
  let lowClose := oseqZip (fun a b => |a - b|) low (shift1 close)
  let trueRange := List.zipWith omax (List.zipWith omax highLow highClose)
    lowClose
  rollingMean period trueRange

/-- The k line of Indicators.stochastic: percent position of the close in
the rolling low-high channel. -/
def kLineOf (high low close : OSeq) (kPeriod : ℕ) : OSeq :=
  let lowestLow := rollingMin kPeriod low
  let highestHigh := rollingMax kPeriod high
  oseqMap (fun x => 100 * x)
    (oseqDiv (oseqZip (fun a b => a - b) close lowestLow)
      (oseqZip (fun a b => a - b) highestHigh lowestLow))

/-- Indicators.stochastic: the k line and its rolling mean d line. -/
def stochastic (high low close : OSeq) (kPeriod dPeriod : ℕ) :
    OSeq × OSeq :=
  let kLine := kLineOf high low close kPeriod
  (kLine, rollingMean dPeriod kLine)

/-- primary.where((primary greater than other) and (primary greater than
0), 0) of the directional-movement computation, with a NaN condition
being False. -/
def dmOf (primary other : OSeq) : OSeq :=
  List.zipWith (fun hd ld =>
    match hd, ld with
    | some h, some l => if l < h ∧ 0 < h then some h else some 0
    | some _, none => some 0
    | none, _ => some 0) primary other

/-- The dx series of Indicators.adx: the normalized absolute difference of
the directional indices built from rolling directional movement over the
ATR. -/
def dxOf (high low close : OSeq) (period : ℕ) : OSeq :=
  let highDiff := diffSeq high
  let lowDiff := oseqMap (fun x => -x) (diffSeq low)
  let plusDm := dmOf highDiff lowDiff
  let minusDm := dmOf lowDiff highDiff
  let a := atr high low close period
  let plusDi := oseqMap (fun x => 100 * x)
    (oseqDiv (rollingMean period plusDm) a)
  let minusDi := oseqMap (fun x => 100 * x)
    (oseqDiv (rollingMean period minusDm) a)
  oseqDiv
    (oseqMap (fun x => 100 * |x|) (oseqZip (fun u v => u - v) plusDi minusDi))
    (oseqZip (fun u v => u + v) plusDi minusDi)

/-- Indicators.adx: the rolling mean of dx. -/
def adx (high low close : OSeq) (period : ℕ) : OSeq :=
  rollingMean period (dxOf high low close period)

/-- np.sign on rationals. -/
def qsign (x : ℚ) : ℚ := if 0 < x then 1 else if x < 0 then -1 else 0

/-- Series.cumsum(): running sum, skipping NaN entries (which stay NaN in
the output). -/
def ocumsum (acc : ℚ) : OSeq → OSeq
  | [] => []
  | none :: rest => none :: ocumsum acc rest
  | some x :: rest => some (acc + x) :: ocumsum (acc + x) rest

/-- Indicators.obv: cumulative volume signed by the close move, the
undefined first move filled to 0 before summing. -/
def obv (close volume : OSeq) : OSeq :=
  let signed := oseqZip (fun s v => s * v) (oseqMap qsign (diffSeq close))
    volume
  let filled := signed.map (fun o => some (o.getD 0))
  ocumsum 0 filled

/-- Indicators.vwap: cumulative typical-price volume over cumulative
volume. -/
def vwap (high low close volume : OSeq) : OSeq :=
  let typicalPrice := oseqMap (fun x => x / 3)
    (oseqZip (fun a b => a + b) (oseqZip (fun a b => a + b) high low) close)
  oseqDiv (ocumsum 0 (oseqZip (fun t v => t * v) typicalPrice volume))
    (ocumsum 0 volume)

theorem length_liftSeq (xs : List ℚ) : (liftSeq xs).length = xs.length :=
  List.length_map _ _

theorem length_oseqZip (f : ℚ → ℚ → ℚ) (xs ys : OSeq) :
    (oseqZip f xs ys).length = min xs.length ys.length :=
  List.length_zipWith _ _ _

theorem length_oseqMap (f : ℚ → ℚ) (xs : OSeq) :
    (oseqMap f xs).length = xs.length :=
  List.length_map _ _

theorem length_oseqDiv (xs ys : OSeq) :
    (oseqDiv xs ys).length = min xs.length ys.length :=
  List.length_zipWith _ _ _

theorem length_shift1 (xs : OSeq) : (shift1 xs).length = xs.length := by
  cases xs with
  | nil => rfl
  | cons a rest => simp [shift1]

theorem length_diffSeq (xs : OSeq) : (diffSeq xs).length = xs.length := by
  simp [diffSeq, length_oseqZip, length_shift1]

theorem length_rollingApply (f : List ℚ → ℚ) (p : ℕ) (xs : OSeq) :
    (rollingApply f p xs).length = xs.length := by
  simp [rollingApply]

theorem length_rollingStdSq (p : ℕ) (xs : OSeq) :
    (rollingStdSq p xs).length = xs.length := by
  unfold rollingStdSq
  split <;> simp [length_rollingApply]

theorem length_ewmRun (α : ℚ) :
    ∀ (prev : Option ℚ) (xs : OSeq), (ewmRun α prev xs).length = xs.length := by
  intro prev xs
  induction xs generalizing prev with
  | nil => cases prev <;> rfl
  | cons h t ih => cases prev <;> cases h <;> simp [ewmRun, ih]

theorem length_ocumsum :
    ∀ (acc : ℚ) (xs : OSeq), (ocumsum acc xs).length = xs.length := by
  intro acc xs
  induction xs generalizing acc with
  | nil => rfl
  | cons h t ih => cases h <;> simp [ocumsum, ih]

theorem get?_zipWith {α β γ : Type} (f : α → β → γ) :
    ∀ (as : List α) (bs : List β) (i : ℕ),
      (List.zipWith f as bs).get? i =
        match as.get? i, bs.get? i with
        | some a, some b => some (f a b)
        | _, _ => none := by
  intro as
  induction as with
  | nil => intro bs i; cases bs <;> cases i <;> rfl
  | cons a as ih =>
    intro bs i
    cases bs with
    | nil =>
      cases i with
      | zero => rfl
      | succ j =>
        rcases h : (a :: as).get? (j + 1) with _ | v <;>
          simp [List.zipWith_nil_right, h]
    | cons b bs =>
      cases i with
      | zero => rfl
      | succ j =>
        simp only [List.zipWith_cons_cons, List.get?_cons_succ]
        exact ih bs j

theorem rollingApply_get? (f : List ℚ → ℚ) (p : ℕ) (xs : OSeq) (i : ℕ)
    (h : i < xs.length) :
    (rollingApply f p xs).get? i = some (
      if p ≤ i + 1 ∧ 1 ≤ p then
        match allVals ((xs.drop (i + 1 - p)).take p) with
        | some vals => some (f vals)
        | none => none
      else none) := by
  unfold rollingApply
  rw [List.get?_map, List.get?_range h]
  rfl

theorem rollingApply_warmup (f : List ℚ → ℚ) (p : ℕ) (xs : OSeq) (i : ℕ)
    (h : i < xs.length) (hw : i + 1 < p) :
    (rollingApply f p xs).get? i = some none := by
  rw [rollingApply_get? f p xs i h,
    if_neg (fun hc => absurd hc.1 (by omega))]

theorem allVals_none {w : OSeq} (h : none ∈ w) : allVals w = none := by
  induction w with
  | nil => cases h
  | cons a rest ih =>
    cases a with
    | none => rfl
    | some x =>
      rcases List.mem_cons.mp h with h0 | h0
      · cases h0
      · simp [allVals, ih h0]

theorem rollingApply_noneWindow (f : List ℚ → ℚ) (p : ℕ) (xs : OSeq)
    (i j : ℕ) (hi : i < xs.length) (hp : p ≤ i + 1)
    (hj1 : i + 1 - p ≤ j) (hj2 : j ≤ i) (hxj : xs.get? j = some none) :
    (rollingApply f p xs).get? i = some none := by
  rw [rollingApply_get? f p xs i hi]
  have hmem : (none : Option ℚ) ∈ (xs.drop (i + 1 - p)).take p := by
    have hwin : ((xs.drop (i + 1 - p)).take p).get? (j - (i + 1 - p)) =
        some none := by
      rw [List.get?_take (by omega : j - (i + 1 - p) < p), List.get?_drop,
        (by omega : i + 1 - p + (j - (i + 1 - p)) = j)]
      exact hxj
    exact List.get?_mem hwin
  rw [if_pos ⟨hp, by omega⟩, allVals_none hmem]

/-- Every element of the sequence is defined (not NaN). -/
def AllDef (xs : OSeq) : Prop := ∀ o ∈ xs, o ≠ none

theorem allDef_liftSeq (xs : List ℚ) : AllDef (liftSeq xs) := by
  intro o ho
  obtain ⟨x, _, hxo⟩ := List.mem_map.mp ho
  rw [← hxo]
  exact Option.some_ne_none x

theorem allDef_oseqMap (f : ℚ → ℚ) (xs : OSeq) (h : AllDef xs) :
    AllDef (oseqMap f xs) := by
  intro o ho
  obtain ⟨a, ha, hao⟩ := List.mem_map.mp ho
  obtain ⟨x, hx⟩ := Option.ne_none_iff_exists.mp (h a ha)
  rw [← hao, ← hx]
  exact Option.some_ne_none _

theorem allDef_oseqZip (f : ℚ → ℚ → ℚ) (xs ys : OSeq) (hx : AllDef xs)
    (hy : AllDef ys) : AllDef (oseqZip f xs ys) := by
  intro o ho
  obtain ⟨a, ha, b, hb, hab⟩ := TradingFramework.exists_of_mem_zipWith _ xs ys o ho
  obtain ⟨x, hxa⟩ := Option.ne_none_iff_exists.mp (hx a ha)
  obtain ⟨y, hyb⟩ := Option.ne_none_iff_exists.mp (hy b hb)
  rw [hab, ← hxa, ← hyb]
  exact Option.some_ne_none _

theorem allDef_ewmRun (α : ℚ) :
    ∀ (prev : Option ℚ) (xs : OSeq), AllDef xs → AllDef (ewmRun α prev xs) := by
  intro prev xs
  induction xs generalizing prev with
  | nil => intro _ o ho; cases prev <;> cases ho
  | cons h t ih =>
    intro hall o ho
    have hrest : AllDef t := fun u hu => hall u (List.mem_cons_of_mem h hu)
    cases hh : h with
    | none => exact absurd hh (hall h (List.mem_cons_self h t))
    | some v =>
      subst hh
      cases prev with
      | none =>
        rcases List.mem_cons.mp ho with h0 | h0
        · rw [h0]; exact Option.some_ne_none _
        · exact ih (some v) hrest o h0
      | some m =>
        rcases List.mem_cons.mp ho with h0 | h0
        · rw [h0]; exact Option.some_ne_none _
        · exact ih _ hrest o h0

theorem allDef_ocumsum :
    ∀ (acc : ℚ) (xs : OSeq), AllDef xs → AllDef (ocumsum acc xs) := by
  intro acc xs
  induction xs generalizing acc with
  | nil => intro _ o ho; cases ho
  | cons h t ih =>
    intro hall o ho
    have hrest : AllDef t := fun u hu => hall u (List.mem_cons_of_mem h hu)
    cases hh : h with
    | none => exact absurd hh (hall h (List.mem_cons_self h t))
    | some v =>
      subst hh
      rcases List.mem_cons.mp ho with h0 | h0
      · rw [h0]; exact Option.some_ne_none _
      · exact ih (acc + v) hrest o h0

theorem oseqZip_get?_none_left (f : ℚ → ℚ → ℚ) (xs ys : OSeq) (i : ℕ)
    (hx : xs.get? i = some none) (hy : i < ys.length) :
    (oseqZip f xs ys).get? i = some none := by
  unfold oseqZip
  rw [get?_zipWith, hx, List.get?_eq_get hy]

theorem oseqZip_get?_none_right (f : ℚ → ℚ → ℚ) (xs ys : OSeq) (i : ℕ)
    (hx : i < xs.length) (hy : ys.get? i = some none) :
    (oseqZip f xs ys).get? i = some none := by
  unfold oseqZip
  rw [get?_zipWith, hy, List.get?_eq_get hx]
  rcases xs.get ⟨i, hx⟩ <;> rfl

theorem oseqDiv_get?_none_left (xs ys : OSeq) (i : ℕ)
    (hx : xs.get? i = some none) (hy : i < ys.length) :
    (oseqDiv xs ys).get? i = some none := by
  unfold oseqDiv
  rw [get?_zipWith, hx, List.get?_eq_get hy]

theorem oseqMap_get?_none (f : ℚ → ℚ) (xs : OSeq) (i : ℕ)
    (hx : xs.get? i = some none) :
    (oseqMap f xs).get? i = some none := by
  unfold oseqMap
  rw [List.get?_map, hx]
  rfl

theorem sma_spec (xs : List ℚ) (p : ℕ) :
    (sma (liftSeq xs) p).length = xs.length ∧
    ∀ i, i < xs.length → i + 1 < p → (sma (liftSeq xs) p).get? i = some none := by
  constructor
  · simp [sma, rollingMean, length_rollingApply, length_liftSeq]
  · intro i hi hw
    exact rollingApply_warmup _ _ _ _ (by rw [length_liftSeq]; exact hi) hw

theorem ema_spec (xs : List ℚ) (p : ℕ) :
    (ema (liftSeq xs) p).length = xs.length ∧
    AllDef (ema (liftSeq xs) p) := by
  constructor
  · simp [ema, length_ewmRun, length_liftSeq]
  · exact allDef_ewmRun _ _ _ (allDef_liftSeq xs)

theorem rsi_spec (xs : List ℚ) (p : ℕ) :
    (rsi (liftSeq xs) p).length = xs.length ∧
    ∀ i, i < xs.length → i + 1 < p → (rsi (liftSeq xs) p).get? i = some none := by
  constructor
  · simp [rsi, length_oseqMap, length_oseqDiv, rollingMean,
      length_rollingApply, gainsOf, lossesOf, List.length_map, length_diffSeq,
      length_liftSeq]
  · intro i hi hw
    apply oseqMap_get?_none
    apply oseqDiv_get?_none_left
    · apply rollingApply_warmup
      · rw [gainsOf, List.length_map, length_diffSeq, length_liftSeq]
        exact hi
      · exact hw
    · rw [rollingMean, length_rollingApply, lossesOf, List.length_map,
        length_diffSeq, length_liftSeq]
      exact hi

theorem macd_spec (xs : List ℚ) (f s g : ℕ) :
    ((macd (liftSeq xs) f s g).1.length = xs.length ∧
      AllDef (macd (liftSeq xs) f s g).1) ∧
    ((macd (liftSeq xs) f s g).2.1.length = xs.length ∧
      AllDef (macd (liftSeq xs) f s g).2.1) ∧
    ((macd (liftSeq xs) f s g).2.2.length = xs.length ∧
      AllDef (macd (liftSeq xs) f s g).2.2) := by
  have hlf := (ema_spec xs f).1
  have hls := (ema_spec xs s).1
  have hdf := (ema_spec xs f).2
  have hds := (ema_spec xs s).2
  have hline_len : (oseqZip (fun a b => a - b) (ema (liftSeq xs) f)
      (ema (liftSeq xs) s)).length = xs.length := by
    rw [length_oseqZip, hlf, hls, min_self]
  have hline_def : AllDef (oseqZip (fun a b => a - b) (ema (liftSeq xs) f)
      (ema (liftSeq xs) s)) := allDef_oseqZip _ _ _ hdf hds
  have hsig_len : (ema (oseqZip (fun a b => a - b) (ema (liftSeq xs) f)
      (ema (liftSeq xs) s)) g).length = xs.length := by
    rw [ema, length_ewmRun, hline_len]
  have hsig_def : AllDef (ema (oseqZip (fun a b => a - b) (ema (liftSeq xs) f)
      (ema (liftSeq xs) s)) g) := allDef_ewmRun _ _ _ hline_def
  refine ⟨⟨hline_len, hline_def⟩, ⟨hsig_len, hsig_def⟩, ?_, ?_⟩
  · show (oseqZip _ _ _).length = xs.length
    rw [length_oseqZip, hline_len, hsig_len, min_self]
  · exact allDef_oseqZip _ _ _ hline_def hsig_def

theorem bollinger_spec (xs : List ℚ) (p : ℕ) (k : ℚ) :
    ((bollingerBands (liftSeq xs) p k).1.length = xs.length ∧
     (bollingerBands (liftSeq xs) p k).2.1.length = xs.length ∧
     (bollingerBands (liftSeq xs) p k).2.2.length = xs.length) ∧
    ∀ i, i < xs.length → i + 1 < p →
      (bollingerBands (liftSeq xs) p k).1.get? i = some none ∧
      (bollingerBands (liftSeq xs) p k).2.1.get? i = some none ∧
      (bollingerBands (liftSeq xs) p k).2.2.get? i = some none := by
  have hm := sma_spec xs p
  have hsd : (rollingStdSq p (liftSeq xs)).length = xs.length := by
    rw [length_rollingStdSq, length_liftSeq]
  constructor
  · refine ⟨?_, hm.1, ?_⟩ <;>
      · show (oseqZip _ _ _).length = xs.length
        rw [length_oseqZip, hm.1, hsd, min_self]
  · intro i hi hw
    refine ⟨?_, hm.2 i hi hw, ?_⟩ <;>
      exact oseqZip_get?_none_left _ _ _ _ (hm.2 i hi hw) (by rw [hsd]; exact hi)

theorem atr_spec (h l c : List ℚ) (p : ℕ) (hh : h.length = c.length)
    (hl : l.length = c.length) :
    (atr (liftSeq h) (liftSeq l) (liftSeq c) p).length = c.length ∧
    ∀ i, i < c.length → i + 1 < p →
      (atr (liftSeq h) (liftSeq l) (liftSeq c) p).get? i = some none := by
  have htr : (List.zipWith omax (List.zipWith omax
      (oseqZip (fun a b => a - b) (liftSeq h) (liftSeq l))
      (oseqZip (fun a b => |a - b|) (liftSeq h) (shift1 (liftSeq c))))
      (oseqZip (fun a b => |a - b|) (liftSeq l) (shift1 (liftSeq c)))).length
      = c.length := by
    simp [List.length_zipWith, length_oseqZip, length_shift1, length_liftSeq,
      hh, hl]
  constructor
  · rw [atr, rollingMean, length_rollingApply]
    exact htr
  · intro i hi hw
    rw [atr]
    exact rollingApply_warmup _ _ _ _ (by rw [htr]; exact hi) hw

theorem kLine_len (h l c : List ℚ) (kp : ℕ) (hh : h.length = c.length)
    (hl : l.length = c.length) :
    (kLineOf (liftSeq h) (liftSeq l) (liftSeq c) kp).length = c.length := by
  simp [kLineOf, length_oseqMap, length_oseqDiv, length_oseqZip, rollingMin,
    rollingMax, length_rollingApply, length_liftSeq, hh, hl]

theorem kLine_none (h l c : List ℚ) (kp : ℕ) (hh : h.length = c.length)
    (hl : l.length = c.length) (i : ℕ) (hi : i < c.length)
    (hw : i + 1 < kp) :
    (kLineOf (liftSeq h) (liftSeq l) (liftSeq c) kp).get? i = some none := by
  show (oseqMap _ (oseqDiv _ _)).get? i = some none
  apply oseqMap_get?_none
  apply oseqDiv_get?_none_left
  · apply oseqZip_get?_none_right
    · rw [length_liftSeq]
      exact hi
    · exact rollingApply_warmup _ _ _ _
        (by rw [length_liftSeq, hl]; exact hi) hw
  · rw [length_oseqZip, rollingMin, rollingMax, length_rollingApply,
      length_rollingApply, length_liftSeq, length_liftSeq, hh, hl, min_self]
    exact hi

theorem stoch_spec (h l c : List ℚ) (kp dp : ℕ) (hh : h.length = c.length)
    (hl : l.length = c.length) (hdp : 1 ≤ dp) :
    ((stochastic (liftSeq h) (liftSeq l) (liftSeq c) kp dp).1.length =
        c.length ∧
      ∀ i, i < c.length → i + 1 < kp →
        (stochastic (liftSeq h) (liftSeq l) (liftSeq c) kp dp).1.get? i =
          some none) ∧
    ((stochastic (liftSeq h) (liftSeq l) (liftSeq c) kp dp).2.length =
        c.length ∧
      ∀ i, i < c.length → i + 1 < kp + dp - 1 →
        (stochastic (liftSeq h) (liftSeq l) (liftSeq c) kp dp).2.get? i =
          some none) := by
  have hklen := kLine_len h l c kp hh hl
  refine ⟨⟨hklen, ?_⟩, ⟨?_, ?_⟩⟩
  · intro i hi hw
    exact kLine_none h l c kp hh hl i hi hw
  · show (rollingApply _ _ _).length = c.length
    rw [length_rollingApply]
    exact hklen
  · intro i hi hw
    show (rollingApply _ _ _).get? i = some none
    rcases Nat.lt_or_ge (i + 1) dp with hcase | hcase
    · exact rollingApply_warmup _ _ _ _ (by rw [hklen]; exact hi) hcase
    · apply rollingApply_noneWindow _ _ _ i (i + 1 - dp)
        (by rw [hklen]; exact hi) hcase (le_refl _) (by omega)
      exact kLine_none h l c kp hh hl (i + 1 - dp) (by omega) (by omega)

theorem dx_len (h l c : List ℚ) (p : ℕ) (hh : h.length = c.length)
    (hl : l.length = c.length) :
    (dxOf (liftSeq h) (liftSeq l) (liftSeq c) p).length = c.length := by
  simp [dxOf, dmOf, atr, length_oseqDiv, length_oseqMap, length_oseqZip,
    List.length_zipWith, rollingMean, length_rollingApply, length_diffSeq,
    length_shift1, length_liftSeq, hh, hl]

theorem dx_none (h l c : List ℚ) (p : ℕ) (hh : h.length = c.length)
    (hl : l.length = c.length) (j : ℕ) (hj : j < c.length)
    (hw : j + 1 < p) :
    (dxOf (liftSeq h) (liftSeq l) (liftSeq c) p).get? j = some none := by
  have hatr := (atr_spec h l c p hh hl).1
  have hdm : ∀ (xs ys : OSeq), xs.length = c.length → ys.length = c.length →
      (dmOf xs ys).length = c.length := by
    intro xs ys h1 h2
    simp [dmOf, List.length_zipWith, h1, h2]
  have hhd : (diffSeq (liftSeq h)).length = c.length := by
    rw [length_diffSeq, length_liftSeq, hh]
  have hld : (oseqMap (fun x => -x) (diffSeq (liftSeq l))).length = c.length := by
    rw [length_oseqMap, length_diffSeq, length_liftSeq, hl]
  have hdi_len : ∀ (dm : OSeq), dm.length = c.length →
      (oseqMap (fun x => (100 : ℚ) * x)
        (oseqDiv (rollingMean p dm)
          (atr (liftSeq h) (liftSeq l) (liftSeq c) p))).length = c.length := by
    intro dm hdm2
    rw [length_oseqMap, length_oseqDiv]
    show min (rollingApply _ _ _).length _ = c.length
    rw [length_rollingApply, hdm2, hatr, min_self]
  have hdi_none : ∀ (dm : OSeq), dm.length = c.length →
      (oseqMap (fun x => (100 : ℚ) * x)
        (oseqDiv (rollingMean p dm)
          (atr (liftSeq h) (liftSeq l) (liftSeq c) p))).get? j = some none := by
    intro dm hdm2
    apply oseqMap_get?_none
    apply oseqDiv_get?_none_left
    · exact rollingApply_warmup _ _ _ _ (by rw [hdm2]; exact hj) hw
    · rw [hatr]
      exact hj
  show (oseqDiv _ _).get? j = some none
  apply oseqDiv_get?_none_left
  · apply oseqMap_get?_none
    apply oseqZip_get?_none_left
    · exact hdi_none _ (hdm _ _ hhd hld)
    · rw [hdi_len _ (hdm _ _ hld hhd)]
      exact hj
  · rw [length_oseqZip, hdi_len _ (hdm _ _ hhd hld),
      hdi_len _ (hdm _ _ hld hhd), min_self]
    exact hj

theorem adx_spec (h l c : List ℚ) (p : ℕ) (hh : h.length = c.length)
    (hl : l.length = c.length) :
    (adx (liftSeq h) (liftSeq l) (liftSeq c) p).length = c.length ∧
    ∀ i, i < c.length → i + 1 < 2 * p - 1 →
      (adx (liftSeq h) (liftSeq l) (liftSeq c) p).get? i = some none := by
  have hdx := dx_len h l c p hh hl
  constructor
  · show (rollingApply _ _ _).length = c.length
    rw [length_rollingApply]
    exact hdx
  · intro i hi hw
    show (rollingApply _ _ _).get? i = some none
    rcases Nat.lt_or_ge (i + 1) p with hcase | hcase
    · exact rollingApply_warmup _ _ _ _ (by rw [hdx]; exact hi) hcase
    · apply rollingApply_noneWindow _ _ _ i (i + 1 - p)
        (by rw [hdx]; exact hi) hcase (le_refl _) (by omega)
      exact dx_none h l c p hh hl (i + 1 - p) (by omega) (by omega)

theorem obv_spec (c v : List ℚ) (hc : c.length = v.length) :
    (obv (liftSeq c) (liftSeq v)).length = v.length ∧
    AllDef (obv (liftSeq c) (liftSeq v)) := by
  constructor
  · show (ocumsum 0 _).length = v.length
    rw [length_ocumsum, List.length_map, length_oseqZip, length_oseqMap,
      length_diffSeq, length_liftSeq, length_liftSeq, hc, min_self]
  · show AllDef (ocumsum 0 _)
    apply allDef_ocumsum
    intro o ho
    obtain ⟨a, _, hao⟩ := List.mem_map.mp ho
    rw [← hao]
    exact Option.some_ne_none _

theorem ocumsum_pos (vols : List ℚ) (hv : ∀ x ∈ vols, 0 < x) :
    ∀ (acc : ℚ), 0 ≤ acc →
      ∀ o ∈ ocumsum acc (liftSeq vols), ∃ w, o = some w ∧ 0 < w := by
  induction vols with
  | nil => intro acc _ o ho; cases ho
  | cons x rest ih =>
    intro acc hacc o ho
    have hxpos := hv x (List.mem_cons_self x rest)
    rcases List.mem_cons.mp ho with h0 | h0
    · exact ⟨acc + x, h0, by linarith⟩
    · exact ih (fun u hu => hv u (List.mem_cons_of_mem x hu)) (acc + x)
        (by linarith) o h0

theorem vwap_spec (h l c v : List ℚ) (hh : h.length = v.length)
    (hl : l.length = v.length) (hc : c.length = v.length) :
    (vwap (liftSeq h) (liftSeq l) (liftSeq c) (liftSeq v)).length = v.length ∧
    ((∀ x ∈ v, 0 < x) →
      AllDef (vwap (liftSeq h) (liftSeq l) (liftSeq c) (liftSeq v))) := by
  constructor
  · show (oseqDiv _ _).length = v.length
    rw [length_oseqDiv, length_ocumsum, length_ocumsum, length_oseqZip,
      length_oseqMap, length_oseqZip, length_oseqZip, length_liftSeq,
      length_liftSeq, length_liftSeq, length_liftSeq, hh, hl, hc]
    simp
  · intro hv o ho
    have hnum : AllDef (ocumsum 0 (oseqZip (fun t w => t * w)
        (oseqMap (fun x => x / 3)
          (oseqZip (fun a b => a + b)
            (oseqZip (fun a b => a + b) (liftSeq h) (liftSeq l)) (liftSeq c)))
        (liftSeq v))) :=
      allDef_ocumsum _ _ (allDef_oseqZip _ _ _
        (allDef_oseqMap _ _ (allDef_oseqZip _ _ _
          (allDef_oseqZip _ _ _ (allDef_liftSeq h) (allDef_liftSeq l))
          (allDef_liftSeq c)))
        (allDef_liftSeq v))
    obtain ⟨a, ha, b, hb, hab⟩ :=
      TradingFramework.exists_of_mem_zipWith _ _ _ o ho
    obtain ⟨x, hxa⟩ := Option.ne_none_iff_exists.mp (hnum a ha)
    obtain ⟨w, hbw, hwpos⟩ := ocumsum_pos v hv 0 (le_refl 0) b hb
    rw [hab, ← hxa, hbw]
    simp only []
    rw [if_neg (ne_of_gt hwpos)]
    exact Option.some_ne_none _

/-- Claim C7: every indicator of the library, applied to a numeric
sequence (and aligned companion sequences of the same length where it
takes several) and its scalar parameters, returns a sequence of the same
length, and every position before the indicator's minimum required
history holds an undefined (NaN) value: the rolling-window indicators
(SMA, RSI, the Bollinger bands, ATR, the stochastic lines, ADX) are
undefined on their warm-up windows, while EMA, the MACD family, OBV and
VWAP (over positive volume) need only one sample and are defined from
position 0 on, so their warm-up condition is vacuous and definedness
everywhere is proved instead. -/
theorem claim_C7 :
    (∀ (xs : List ℚ) (p : ℕ),
      (sma (liftSeq xs) p).length = xs.length ∧
      ∀ i, i < xs.length → i + 1 < p →
        (sma (liftSeq xs) p).get? i = some none) ∧
    (∀ (xs : List ℚ) (p : ℕ),
      (ema (liftSeq xs) p).length = xs.length ∧
      AllDef (ema (liftSeq xs) p)) ∧
    (∀ (xs : List ℚ) (p : ℕ),
      (rsi (liftSeq xs) p).length = xs.length ∧
      ∀ i, i < xs.length → i + 1 < p →
        (rsi (liftSeq xs) p).get? i = some none) ∧
    (∀ (xs : List ℚ) (f s g : ℕ),
      ((macd (liftSeq xs) f s g).1.length = xs.length ∧
        AllDef (macd (liftSeq xs) f s g).1) ∧
      ((macd (liftSeq xs) f s g).2.1.length = xs.length ∧
        AllDef (macd (liftSeq xs) f s g).2.1) ∧
      ((macd (liftSeq xs) f s g).2.2.length = xs.length ∧
        AllDef (macd (liftSeq xs) f s g).2.2)) ∧
    (∀ (xs : List ℚ) (p : ℕ) (k : ℚ),
      ((bollingerBands (liftSeq xs) p k).1.length = xs.length ∧
       (bollingerBands (liftSeq xs) p k).2.1.length = xs.length ∧
       (bollingerBands (liftSeq xs) p k).2.2.length = xs.length) ∧
      ∀ i, i < xs.length → i + 1 < p →
        (bollingerBands (liftSeq xs) p k).1.get? i = some none ∧
        (bollingerBands (liftSeq xs) p k).2.1.get? i = some none ∧
        (bollingerBands (liftSeq xs) p k).2.2.get? i = some none) ∧
    (∀ (h l c : List ℚ) (p : ℕ), h.length = c.length → l.length = c.length →
      (atr (liftSeq h) (liftSeq l) (liftSeq c) p).length = c.length ∧
      ∀ i, i < c.length → i + 1 < p →
        (atr (liftSeq h) (liftSeq l) (liftSeq c) p).get? i = some none) ∧
    (∀ (h l c : List ℚ) (kp dp : ℕ), h.length = c.length →
      l.length = c.length → 1 ≤ dp →
      ((stochastic (liftSeq h) (liftSeq l) (liftSeq c) kp dp).1.length =
          c.length ∧
        ∀ i, i < c.length → i + 1 < kp →
          (stochastic (liftSeq h) (liftSeq l) (liftSeq c) kp dp).1.get? i =
            some none) ∧
      ((stochastic (liftSeq h) (liftSeq l) (liftSeq c) kp dp).2.length =
          c.length ∧
        ∀ i, i < c.length → i + 1 < kp + dp - 1 →
          (stochastic (liftSeq h) (liftSeq l) (liftSeq c) kp dp).2.get? i =
            some none)) ∧
    (∀ (h l c : List ℚ) (p : ℕ), h.length = c.length → l.length = c.length →
      (adx (liftSeq h) (liftSeq l) (liftSeq c) p).length = c.length ∧
      ∀ i, i < c.length → i + 1 < 2 * p - 1 →
        (adx (liftSeq h) (liftSeq l) (liftSeq c) p).get? i = some none) ∧
    (∀ (c v : List ℚ), c.length = v.length →
      (obv (liftSeq c) (liftSeq v)).length = v.length ∧
      AllDef (obv (liftSeq c) (liftSeq v))) ∧
    (∀ (h l c v : List ℚ), h.length = v.length → l.length = v.length →
      c.length = v.length →
      (vwap (liftSeq h) (liftSeq l) (liftSeq c) (liftSeq v)).length =
        v.length ∧
      ((∀ x ∈ v, 0 < x) →
        AllDef (vwap (liftSeq h) (liftSeq l) (liftSeq c) (liftSeq v)))) :=
  ⟨sma_spec, ema_spec, rsi_spec, macd_spec, bollinger_spec,
   fun h l c p hh hl => atr_spec h l c p hh hl,
   fun h l c kp dp hh hl hdp => stoch_spec h l c kp dp hh hl hdp,
   fun h l c p hh hl => adx_spec h l c p hh hl,
   obv_spec, vwap_spec⟩

/-- Witness for claim C7 at concrete inputs: three-sample series through
each indicator, with representative warm-up positions shown undefined and
the seed-from-first-sample indicators shown defined. -/
theorem claim_C7_witness :
    ((sma (liftSeq [1, 2, 3]) 3).length = 3 ∧
      (sma (liftSeq [1, 2, 3]) 3).get? 0 = some none) ∧
    ((ema (liftSeq [1, 2, 3]) 3).length = 3 ∧
      AllDef (ema (liftSeq [1, 2, 3]) 3)) ∧
    ((rsi (liftSeq [1, 2, 3]) 3).length = 3 ∧
      (rsi (liftSeq [1, 2, 3]) 3).get? 0 = some none) ∧
    ((macd (liftSeq [1, 2, 3]) 2 3 2).1.length = 3 ∧
      AllDef (macd (liftSeq [1, 2, 3]) 2 3 2).1 ∧
      (macd (liftSeq [1, 2, 3]) 2 3 2).2.1.length = 3 ∧
      AllDef (macd (liftSeq [1, 2, 3]) 2 3 2).2.1 ∧
      (macd (liftSeq [1, 2, 3]) 2 3 2).2.2.length = 3 ∧
      AllDef (macd (liftSeq [1, 2, 3]) 2 3 2).2.2) ∧
    ((bollingerBands (liftSeq [1, 2, 3]) 3 2).1.length = 3 ∧
      (bollingerBands (liftSeq [1, 2, 3]) 3 2).1.get? 0 = some none ∧
      (bollingerBands (liftSeq [1, 2, 3]) 3 2).2.1.get? 0 = some none ∧
      (bollingerBands (liftSeq [1, 2, 3]) 3 2).2.2.get? 0 = some none) ∧
    ((atr (liftSeq [3, 4, 5]) (liftSeq [1, 2, 3]) (liftSeq [2, 3, 4])
        3).length = 3 ∧
      (atr (liftSeq [3, 4, 5]) (liftSeq [1, 2, 3]) (liftSeq [2, 3, 4])
        3).get? 0 = some none) ∧
    (((stochastic (liftSeq [3, 4, 5]) (liftSeq [1, 2, 3]) (liftSeq [2, 3, 4])
        2 2).1.get? 0 = some none) ∧
      ((stochastic (liftSeq [3, 4, 5]) (liftSeq [1, 2, 3]) (liftSeq [2, 3, 4])
        2 2).2.get? 1 = some none)) ∧
    ((adx (liftSeq [3, 4, 5]) (liftSeq [1, 2, 3]) (liftSeq [2, 3, 4])
        2).length = 3 ∧
      (adx (liftSeq [3, 4, 5]) (liftSeq [1, 2, 3]) (liftSeq [2, 3, 4])
        2).get? 1 = some none) ∧
    ((obv (liftSeq [1, 2, 3]) (liftSeq [4, 5, 6])).length = 3 ∧
      AllDef (obv (liftSeq [1, 2, 3]) (liftSeq [4, 5, 6]))) ∧
    ((vwap (liftSeq [3, 4, 5]) (liftSeq [1, 2, 3]) (liftSeq [2, 3, 4])
        (liftSeq [4, 5, 6])).length = 3 ∧
      AllDef (vwap (liftSeq [3, 4, 5]) (liftSeq [1, 2, 3]) (liftSeq [2, 3, 4])
        (liftSeq [4, 5, 6]))) := by
  obtain ⟨h1, h2, h3, h4, h5, h6, h7, h8, h9, h10⟩ := claim_C7
  refine ⟨⟨(h1 [1, 2, 3] 3).1, (h1 [1, 2, 3] 3).2 0 (by norm_num)
      (by norm_num)⟩, ⟨(h2 [1, 2, 3] 3).1, (h2 [1, 2, 3] 3).2⟩,
    ⟨(h3 [1, 2, 3] 3).1, (h3 [1, 2, 3] 3).2 0 (by norm_num) (by norm_num)⟩,
    ?_, ?_, ?_, ?_, ?_, ?_, ?_⟩
  · obtain ⟨⟨a1, a2⟩, ⟨b1, b2⟩, c1, c2⟩ := h4 [1, 2, 3] 2 3 2
    exact ⟨a1, a2, b1, b2, c1, c2⟩
  · obtain ⟨⟨a1, _, _⟩, hb⟩ := h5 [1, 2, 3] 3 2
    obtain ⟨b1, b2, b3⟩ := hb 0 (by norm_num) (by norm_num)
    exact ⟨a1, b1, b2, b3⟩
  · obtain ⟨a1, a2⟩ := h6 [3, 4, 5] [1, 2, 3] [2, 3, 4] 3 rfl rfl
    exact ⟨a1, a2 0 (by norm_num) (by norm_num)⟩
  · obtain ⟨⟨_, a2⟩, ⟨_, b2⟩⟩ := h7 [3, 4, 5] [1, 2, 3] [2, 3, 4] 2 2 rfl rfl
      (by norm_num)
    exact ⟨a2 0 (by norm_num) (by norm_num), b2 1 (by norm_num) (by norm_num)⟩
  · obtain ⟨a1, a2⟩ := h8 [3, 4, 5] [1, 2, 3] [2, 3, 4] 2 rfl rfl
    exact ⟨a1, a2 1 (by norm_num) (by norm_num)⟩
  · exact h9 [1, 2, 3] [4, 5, 6] rfl
  · obtain ⟨a1, a2⟩ := h10 [3, 4, 5] [1, 2, 3] [2, 3, 4] [4, 5, 6] rfl rfl rfl
    exact ⟨a1, a2 (by norm_num)⟩

end Indicators

end TradingFramework
